import Mathlib

/-!
Shallow embedding of the core of `src/SPP_Ingredients_Allocation_App.py`:
the usage aggregator `calculate_proportion` (lines 90-147) and the quantity
allocator `allocate_quantity` (lines 149-194).

Modelling conventions:
* A data frame is a `List Record`; `QUANTITY` values are exact rationals `ℚ`
  (the Python code computes with binary floats; all claims are stated over
  the exact arithmetic the code's formulas denote).
* `pandas.DataFrame.round(0)` / `numpy.rint` is round-half-to-even
  (`roundHalfEven`), and Python `int(...)` truncates toward zero (`ratTrunc`).
* `sort_values(..., ascending=False)` in pandas is implemented (in
  `pandas.core.sorting.nargsort`) as a stable ascending argsort whose result
  is then reversed, so rows with equal keys come out in reversed input order;
  `ascending=True` keeps equal-key rows in input order.  (For the array sizes
  at hand numpy's default quicksort degenerates to stable insertion sort.)
  We model this with `List.mergeSort` (stable) plus an explicit `reverse`.
* `pandas.groupby` aggregates with group keys sorted ascending; we model the
  string order with Lean's `String` order (code-point lexicographic, matching
  Python for the ASCII department labels at issue).
* Python's `str.isnumeric` is modelled for ASCII identifiers: nonempty and
  all characters decimal digits.
* An `AssertionError` (the `assert final_sum == available_quantity` on line
  192) and a `None` result are both modelled with `Option`: `allocate`
  returns `none` exactly when the assertion would fire, and
  `calculate_proportion` returns `none` where the Python returns `None`.
* The `QUANTITY_ABS` / `INTERNAL_WEIGHT` columns (lines 138-139) are computed
  by the source but never read by the allocator or by any claim, so they are
  not carried in `PRow`.
-/

namespace SPP

/-- One historical consumption record: a row of the cleaned data frame.
`serial` is the string form of `ITEM_SERIAL` (the code applies
`.astype(str)` before matching). -/
structure Record where
  serial : String
  itemName : String
  dept : String
  quantity : ℚ
deriving DecidableEq

/-- One row of the usage-proportion table produced by `calculate_proportion`:
department, summed `QUANTITY`, and `PROPORTION` (a percentage). -/
structure PRow where
  dept : String
  quantity : ℚ
  prop : ℚ
deriving DecidableEq

/-- One row of the allocation table produced by `allocate_quantity`:
a `PRow` plus the integer `ALLOCATED_QUANTITY`. -/
structure ARow where
  dept : String
  quantity : ℚ
  prop : ℚ
  alloc : ℤ
deriving DecidableEq

/-- ASCII lower-casing of one character (the fragment of Python `str.lower`
relevant to the ASCII identifiers at issue). -/
def lowerChar (c : Char) : Char :=
  if 'A' ≤ c && c ≤ 'Z' then Char.ofNat (c.toNat + 32) else c

/-- Python `s.lower()`, applied characterwise to the character list of a
string (Lean's `String` is a wrapper around `List Char`). -/
def pyLower (s : String) : List Char :=
  s.data.map lowerChar

/-- Python `str.isnumeric` (ASCII fragment): nonempty and all digits. -/
def pyIsNumeric (s : String) : Bool :=
  !s.data.isEmpty && s.data.all (fun c => '0' ≤ c && c ≤ '9')

/-- The identifier dispatch of lines 100-103: a numeric identifier is an
exact case-insensitive match on the string form of `ITEM_SERIAL`, any other
identifier an exact case-insensitive match on `ITEM NAME`. -/
def matchesIdentifier (identifier : String) (r : Record) : Bool :=
  if pyIsNumeric identifier then pyLower r.serial == pyLower identifier
  else pyLower r.itemName == pyLower identifier

/-- Code-point lexicographic comparison on character lists (the order Python
uses to compare the department-name strings). -/
def charListLe : List Char → List Char → Bool
  | [], _ => true
  | _ :: _, [] => false
  | a :: as, b :: bs => if a < b then true else if b < a then false else charListLe as bs

/-- Lines 109-110: `if department and department != "All Departments"`.
`none` and the empty string are falsy in Python, so they disable the
filter, as does the sentinel label. -/
def applyDeptFilter (department : Option String) (l : List Record) : List Record :=
  match department with
  | none => l
  | some d => if d = "" || d = "All Departments" then l else l.filter (fun r => r.dept == d)

/-- The distinct department keys in ascending order, as
`groupby("DEPARTMENT")` enumerates them.  (`dedup` before sorting; since the
keys are then sorted and duplicate-free, which occurrence `dedup` keeps is
immaterial.) -/
def deptKeys (l : List Record) : List String :=
  ((l.map (·.dept)).dedup).mergeSort (fun a b => charListLe a.data b.data)

/-- Line 115: `filtered_df.groupby("DEPARTMENT")["QUANTITY"].sum()`. -/
def groupDepts (l : List Record) : List (String × ℚ) :=
  (deptKeys l).map (fun d => (d, ((l.filter (fun r => r.dept == d)).map (·.quantity)).sum))

/-- Line 124: `dept_usage["PROPORTION"] = (QUANTITY / total_usage) * 100`. -/
def withProportions (g : List (String × ℚ)) (total : ℚ) : List PRow :=
  g.map (fun p => ⟨p.1, p.2, p.2 / total * 100⟩)

/-- Line 131: `dept_usage.iloc[dept_usage["PROPORTION"].idxmax()]` — the
first row attaining the maximal proportion. -/
def argmaxRow : List PRow → PRow
  | [] => ⟨"", 0, 0⟩
  | r :: rs => rs.foldl (fun best x => if best.prop < x.prop then x else best) r

/-- Lines 126-135: keep rows with `PROPORTION >= min_proportion`; if none
qualify fall back to the single first-argmax row; then renormalize with
`PROPORTION = PROPORTION / total_proportion * 100`. -/
def thresholdRenormalize (min_proportion : ℚ) (rows : List PRow) : List PRow :=
  let significant := rows.filter (fun r => min_proportion ≤ r.prop)
  let kept := if significant.isEmpty && !rows.isEmpty then [argmaxRow rows] else significant
  let total_proportion := (kept.map (·.prop)).sum
  kept.map (fun r => { r with prop := r.prop / total_proportion * 100 })

/-- Line 142: `sort_values(by=["PROPORTION"], ascending=[False])`, i.e. the
reverse of a stable ascending sort (pandas `nargsort` semantics). -/
def pandasSortDescByProp (rows : List PRow) : List PRow :=
  (rows.mergeSort (fun a b => a.prop ≤ b.prop)).reverse

/-- Lines 105-144 of `calculate_proportion`, applied to the records already
filtered by identifier (line 100-103 is factored out so that theorems can
speak about the match step in isolation). -/
def aggregateFiltered (filtered : List Record) (department : Option String)
    (min_proportion : ℚ) : Option (List PRow) :=
  if filtered.isEmpty then none
  else
    let filtered2 := applyDeptFilter department filtered
    if filtered2.isEmpty then none
    else
      let dept_usage := groupDepts filtered2
      let total_usage := (dept_usage.map (·.2)).sum
      if total_usage = 0 then none
      else
        some (pandasSortDescByProp
          (thresholdRenormalize min_proportion (withProportions dept_usage total_usage)))

/-- Lines 90-147: the usage aggregator (`compute_usage` in the spec).
`none` models the Python `None` (NOT_FOUND). -/
def calculate_proportion (df : List Record) (identifier : String)
    (department : Option String) (min_proportion : ℚ) : Option (List PRow) :=
  aggregateFiltered (df.filter (matchesIdentifier identifier)) department min_proportion

/-- The proportion table of lines 115-124 before threshold filtering and
renormalization (used to state which departments get dropped). -/
def preProportions (df : List Record) (identifier : String)
    (department : Option String) : List PRow :=
  let dept_usage := groupDepts (applyDeptFilter department (df.filter (matchesIdentifier identifier)))
  withProportions dept_usage ((dept_usage.map (·.2)).sum)

/-- Python `int(...)` on a rational: truncation toward zero. -/
def ratTrunc (q : ℚ) : ℤ :=
  if 0 ≤ q then ⌊q⌋ else ⌈q⌉

/-- `numpy` rounding to 0 decimals (`Series.round(0)` on line 166):
round half to even. -/
def roundHalfEven (q : ℚ) : ℤ :=
  if q - ⌊q⌋ < 1 / 2 then ⌊q⌋
  else if 1 / 2 < q - ⌊q⌋ then ⌊q⌋ + 1
  else if 2 ∣ ⌊q⌋ then ⌊q⌋ else ⌊q⌋ + 1

/-- Line 160: `(PROPORTION / 100) * available_quantity` per row. -/
def exactShares (rows : List PRow) (Q : ℚ) : List ℚ :=
  rows.map (fun r => r.prop / 100 * Q)

/-- The rounded column of line 166: `ALLOCATED_QUANTITY.round(0).astype(int)`. -/
def roundedShares (rows : List PRow) (Q : ℚ) : List ℤ :=
  (exactShares rows Q).map roundHalfEven

/-- Positions `0, …, n-1` stably sorted ascending by their key — pandas
`Series.sort_values(ascending=True)` on a freshly positioned frame. -/
def pandasSortIdxAsc (keys : List ℚ) : List ℕ :=
  (List.range keys.length).mergeSort (fun i j => keys.getD i 0 ≤ keys.getD j 0)

/-- Positions sorted descending by key: pandas `ascending=False` is the
reverse of the stable ascending sort (`nargsort`), so equal keys come out
in reversed position order. -/
def pandasSortIdxDesc (keys : List ℚ) : List ℕ :=
  (pandasSortIdxAsc keys).reverse

/-- Lines 180-181 / 187-188: add `δ` to the rows selected by `chosen`
(a list of distinct positions), leaving the rest unchanged. -/
def adjustAllocs (rounded : List ℤ) (chosen : List ℕ) (δ : ℤ) : List ℤ :=
  (List.range rounded.length).map
    (fun i => rounded.getD i 0 + if i ∈ chosen then δ else 0)

/-- Lines 160-188 of `allocate_quantity`: the `ALLOCATED_QUANTITY` column
after rounding and remainder correction. -/
def allocationsCore (rows : List PRow) (Q : ℚ) : List ℤ :=
  let exacts := exactShares rows Q
  let rounded := exacts.map roundHalfEven
  let allocated_sum : ℤ := rounded.sum
  if (allocated_sum : ℚ) = Q then rounded
  else
    let difference := ratTrunc (Q - (allocated_sum : ℚ))
    if 0 < difference then
      let fracs := (List.range rows.length).map
        (fun i => exacts.getD i 0 - (rounded.getD i 0 : ℚ))
      adjustAllocs rounded ((pandasSortIdxDesc fracs).take difference.toNat) 1
    else if difference < 0 then
      let fracs := (List.range rows.length).map
        (fun i => exacts.getD i 0 - ((rounded.getD i 0 : ℚ) - 1))
      adjustAllocs rounded ((pandasSortIdxAsc fracs).take (-difference).toNat) (-1)
    else rounded

/-- Lines 160-194: the allocator applied to a proportion table (the spec's
`allocate(usage_proportions, total_quantity)`).  Returns `none` exactly when
the line-192 assertion `final_sum == available_quantity` would fire. -/
def allocate (rows : List PRow) (Q : ℚ) : Option (List ARow) :=
  let allocs := allocationsCore rows Q
  if ((allocs.sum : ℤ) : ℚ) = Q then
    some (rows.zipWith (fun r a => ⟨r.dept, r.quantity, r.prop, a⟩) allocs)
  else none

/-- Lines 149-194: `allocate_quantity`, which always calls
`calculate_proportion` with `min_proportion = 1.0`. -/
def allocate_quantity (df : List Record) (identifier : String)
    (available_quantity : ℚ) (department : Option String) : Option (List ARow) :=
  (calculate_proportion df identifier department 1).bind
    (fun props => allocate props available_quantity)

/-- Modelled from the spec: the minimum-floor allocation policy
(Policy B, spec section 4.2, steps 1-5) is present in the specification but
absent from `src/SPP_Ingredients_Allocation_App.py` (the allocator there has
no `min_floor_percent` parameter); the arithmetic below follows the spec's
words.  Steps: exact shares; `min_quantity = min_floor_percent / 100 *
total_quantity`; partition into `below` (exact < min_quantity) and
`at_or_above`; if both are nonempty, raise every `below` department to
`min_quantity` and reduce every `at_or_above` department proportionally to
its share of the `at_or_above` total by `needed`, floored at zero; if all
departments are below, fall back to equal shares. -/
def allocateFloor (rows : List PRow) (Q : ℚ) (min_floor_percent : ℚ) :
    List (String × ℚ) :=
  let exact : PRow → ℚ := fun r => r.prop / 100 * Q
  let min_quantity := min_floor_percent / 100 * Q
  let below := rows.filter (fun r => exact r < min_quantity)
  let at_or_above := rows.filter (fun r => !(exact r < min_quantity : Bool))
  if below.isEmpty then rows.map (fun r => (r.dept, exact r))
  else if at_or_above.isEmpty then
    rows.map (fun r => (r.dept, Q / (rows.length : ℚ)))
  else
    let needed := (below.map (fun r => min_quantity - exact r)).sum
    let T := (at_or_above.map exact).sum
    rows.map (fun r =>
      if exact r < min_quantity then (r.dept, min_quantity)
      else (r.dept, max 0 (exact r - needed * (exact r / T))))

/-! ### Arithmetic helper lemmas -/

lemma roundHalfEven_intCast (z : ℤ) : roundHalfEven (z : ℚ) = z := by
  unfold roundHalfEven
  rw [Int.floor_intCast]
  norm_num

lemma abs_sub_roundHalfEven_le (q : ℚ) : |q - (roundHalfEven q : ℚ)| ≤ 1 / 2 := by
  have h0 : (⌊q⌋ : ℚ) ≤ q := Int.floor_le q
  have h1 : q < ⌊q⌋ + 1 := Int.lt_floor_add_one q
  unfold roundHalfEven
  split
  · rw [abs_le]; constructor <;> push_cast <;> linarith
  · split
    · rw [abs_le]; constructor <;> push_cast <;> linarith
    · split
      · rw [abs_le]; constructor <;> push_cast <;> linarith
      · rw [abs_le]; constructor <;> push_cast <;> linarith

lemma ratTrunc_intCast (z : ℤ) : ratTrunc (z : ℚ) = z := by
  unfold ratTrunc
  split <;> simp

/-! ### List helper lemmas -/

lemma sum_map_getD_range {α : Type} [AddCommMonoid α] (l : List α) (d : α) :
    (List.range l.length).map (fun i => l.getD i d) = l := by
  induction l with
  | nil => simp
  | cons a t ih =>
    have : (List.range (a :: t).length) = 0 :: (List.range t.length).map Nat.succ := by
      simpa using List.range_succ_eq_map t.length
    rw [this]
    simp only [List.map_cons, List.map_map]
    refine congrArg (List.cons _) ?_
    calc (List.range t.length).map ((fun i => (a :: t).getD i d) ∘ Nat.succ)
        = (List.range t.length).map (fun i => t.getD i d) := by
          refine List.map_congr_left ?_
          intro i _
          simp [List.getD_cons_succ]
      _ = t := ih

lemma sum_range_ite_eq (n c : ℕ) (δ : ℤ) (h : c < n) :
    ((List.range n).map (fun i => if i = c then δ else 0)).sum = δ := by
  induction n with
  | zero => omega
  | succ m ih =>
    rw [List.range_succ, List.map_append, List.sum_append]
    rcases Nat.lt_or_ge c m with hc | hc
    · rw [ih hc]
      have : m ≠ c := by omega
      simp [this]
    · have hcm : c = m := by omega
      subst hcm
      have : ∀ i ∈ List.range c, (if i = c then δ else 0) = 0 := by
        intro i hi
        simp only [List.mem_range] at hi
        simp [Nat.ne_of_lt hi]
      rw [List.map_congr_left this]
      simp

lemma sum_range_indicator (n : ℕ) (chosen : List ℕ) (δ : ℤ)
    (hnd : chosen.Nodup) (hb : ∀ i ∈ chosen, i < n) :
    ((List.range n).map (fun i => if i ∈ chosen then δ else 0)).sum
      = δ * chosen.length := by
  induction chosen with
  | nil => simp
  | cons c cs ih =>
    have hnd' : cs.Nodup := hnd.of_cons
    have hcc : c ∉ cs := by simpa using (List.nodup_cons.mp hnd).1
    have hsplit : ∀ i ∈ List.range n,
        (if i ∈ c :: cs then δ else 0)
          = (if i = c then δ else 0) + (if i ∈ cs then δ else 0) := by
      intro i _
      by_cases h1 : i = c
      · subst h1
        simp [hcc]
      · by_cases h2 : i ∈ cs <;> simp [h1, h2]
    rw [List.map_congr_left hsplit, List.sum_map_add,
      sum_range_ite_eq n c δ (hb c (by simp)), ih hnd' (fun i hi => hb i (by simp [hi]))]
    simp only [List.length_cons]
    push_cast
    ring

lemma adjustAllocs_sum (rounded : List ℤ) (chosen : List ℕ) (δ : ℤ)
    (hnd : chosen.Nodup) (hb : ∀ i ∈ chosen, i < rounded.length) :
    (adjustAllocs rounded chosen δ).sum = rounded.sum + δ * chosen.length := by
  unfold adjustAllocs
  rw [List.sum_map_add, sum_map_getD_range rounded 0,
    sum_range_indicator rounded.length chosen δ hnd hb]

lemma adjustAllocs_getD (rounded : List ℤ) (chosen : List ℕ) (δ : ℤ)
    {i : ℕ} (h : i < rounded.length) :
    (adjustAllocs rounded chosen δ).getD i 0
      = rounded.getD i 0 + if i ∈ chosen then δ else 0 := by
  unfold adjustAllocs
  have hlen : i < ((List.range rounded.length).map
      (fun i => rounded.getD i 0 + if i ∈ chosen then δ else 0)).length := by
    simpa using h
  rw [List.getD_eq_getElem _ _ hlen, List.getElem_map]
  simp

lemma adjustAllocs_length (rounded : List ℤ) (chosen : List ℕ) (δ : ℤ) :
    (adjustAllocs rounded chosen δ).length = rounded.length := by
  simp [adjustAllocs]

lemma getD_map_range {α : Type} (d : α) (g : ℕ → α) {i n : ℕ} (h : i < n) :
    ((List.range n).map g).getD i d = g i := by
  have hlen : i < ((List.range n).map g).length := by simpa using h
  rw [List.getD_eq_getElem _ _ hlen, List.getElem_map]
  simp

/-! ### Sorted index selection -/

lemma pandasSortIdxAsc_perm (keys : List ℚ) :
    (pandasSortIdxAsc keys).Perm (List.range keys.length) :=
  List.mergeSort_perm _ _

lemma pandasSortIdxDesc_perm (keys : List ℚ) :
    (pandasSortIdxDesc keys).Perm (List.range keys.length) :=
  (List.reverse_perm _).trans (pandasSortIdxAsc_perm keys)

lemma pandasSortIdxAsc_pairwise (keys : List ℚ) :
    List.Pairwise (fun i j => keys.getD i 0 ≤ keys.getD j 0) (pandasSortIdxAsc keys) := by
  have h := @List.sorted_mergeSort ℕ
    (fun i j => decide (keys.getD i 0 ≤ keys.getD j 0))
    (fun a b c hab hbc => by
      simp only [decide_eq_true_eq] at hab hbc ⊢
      exact le_trans hab hbc)
    (fun a b => by
      simp only [Bool.or_eq_true, decide_eq_true_eq]
      exact le_total _ _)
    (List.range keys.length)
  refine h.imp ?_
  intro a b hab
  simpa using hab

lemma pandasSortIdxDesc_pairwise (keys : List ℚ) :
    List.Pairwise (fun i j => keys.getD j 0 ≤ keys.getD i 0) (pandasSortIdxDesc keys) := by
  unfold pandasSortIdxDesc
  exact (List.pairwise_reverse).mpr (pandasSortIdxAsc_pairwise keys)

lemma take_of_sorted_perm_range {n : ℕ} {R : ℕ → ℕ → Prop} {s : List ℕ} (k : ℕ)
    (hperm : s.Perm (List.range n)) (hpair : List.Pairwise R s) (hk : k ≤ n) :
    (s.take k).length = k ∧ (s.take k).Nodup ∧ (∀ i ∈ s.take k, i < n) ∧
      ∀ i ∈ s.take k, ∀ j, j < n → j ∉ s.take k → R i j := by
  have hlen : s.length = n := hperm.length_eq.trans (List.length_range n)
  have hnd : s.Nodup := hperm.symm.nodup (List.nodup_range n)
  refine ⟨by simp [List.length_take, hlen, hk], (List.take_sublist k s).nodup hnd, ?_, ?_⟩
  · intro i hi
    have : i ∈ s := (List.take_sublist k s).mem hi
    simpa using (hperm.mem_iff).mp this
  · intro i hi j hj hjn
    have hjs : j ∈ s := (hperm.mem_iff).mpr (by simpa using hj)
    have hjd : j ∈ s.drop k := by
      rcases (List.mem_append.mp (by rw [List.take_append_drop k s]; exact hjs)) with h | h
      · exact absurd h hjn
      · exact h
    have hp : List.Pairwise R (s.take k ++ s.drop k) := by
      rw [List.take_append_drop k s]; exact hpair
    exact ((List.pairwise_append.mp hp).2.2) i hi j hjd

/-! ### Allocator arithmetic -/

lemma exactShares_length (rows : List PRow) (Q : ℚ) :
    (exactShares rows Q).length = rows.length := by
  simp [exactShares]

lemma roundedShares_def (rows : List PRow) (Q : ℚ) :
    roundedShares rows Q = (exactShares rows Q).map roundHalfEven := rfl

lemma roundedShares_length (rows : List PRow) (Q : ℚ) :
    (roundedShares rows Q).length = rows.length := by
  simp [roundedShares, exactShares]

lemma exactShares_sum (rows : List PRow) (Q : ℚ)
    (hsum : (rows.map (·.prop)).sum = 100) : (exactShares rows Q).sum = Q := by
  unfold exactShares
  have h1 : rows.map (fun r => r.prop / 100 * Q) = rows.map (fun r => r.prop * (Q / 100)) :=
    List.map_congr_left (fun r _ => by ring)
  rw [h1, List.sum_map_mul_right, hsum]
  ring

lemma abs_sum_sub_roundHalfEven (exacts : List ℚ) :
    |exacts.sum - ((exacts.map roundHalfEven).sum : ℚ)| ≤ (exacts.length : ℚ) / 2 := by
  induction exacts with
  | nil => simp
  | cons a t ih =>
    have h1 := abs_sub_roundHalfEven_le a
    have h2 : |(a + t.sum) - ((roundHalfEven a + (t.map roundHalfEven).sum : ℤ) : ℚ)|
        ≤ |a - (roundHalfEven a : ℚ)| + |t.sum - ((t.map roundHalfEven).sum : ℚ)| := by
      have h3 := abs_add (a - (roundHalfEven a : ℚ))
        (t.sum - ((t.map roundHalfEven).sum : ℚ))
      have h4 : (a + t.sum) - ((roundHalfEven a + (t.map roundHalfEven).sum : ℤ) : ℚ)
          = (a - (roundHalfEven a : ℚ)) + (t.sum - ((t.map roundHalfEven).sum : ℚ)) := by
        push_cast
        ring
      rw [h4]
      exact h3
    simp only [List.sum_cons, List.map_cons, List.length_cons]
    calc |(a + t.sum) - ((roundHalfEven a + (t.map roundHalfEven).sum : ℤ) : ℚ)|
        ≤ |a - (roundHalfEven a : ℚ)| + |t.sum - ((t.map roundHalfEven).sum : ℚ)| := h2
      _ ≤ 1 / 2 + (t.length : ℚ) / 2 := add_le_add h1 ih
      _ = ((t.length : ℚ) + 1) / 2 := by ring
      _ = (((t.length + 1 : ℕ)) : ℚ) / 2 := by push_cast; ring

lemma allocationsCore_sum_branch (rows : List PRow) (Q : ℚ)
    (h : ((((exactShares rows Q).map roundHalfEven).sum : ℤ) : ℚ) = Q) :
    allocationsCore rows Q = (exactShares rows Q).map roundHalfEven := by
  simp only [allocationsCore]
  rw [if_pos h]

lemma allocationsCore_pos_branch (rows : List PRow) (Q : ℚ)
    (h : ¬ ((((exactShares rows Q).map roundHalfEven).sum : ℤ) : ℚ) = Q)
    (hpos : 0 < ratTrunc (Q - ((((exactShares rows Q).map roundHalfEven).sum : ℤ) : ℚ))) :
    allocationsCore rows Q
      = adjustAllocs ((exactShares rows Q).map roundHalfEven)
          ((pandasSortIdxDesc ((List.range rows.length).map (fun i =>
              (exactShares rows Q).getD i 0
                - (((exactShares rows Q).map roundHalfEven).getD i 0 : ℚ)))).take
            (ratTrunc (Q - ((((exactShares rows Q).map roundHalfEven).sum : ℤ) : ℚ))).toNat) 1 := by
  simp only [allocationsCore]
  rw [if_neg h, if_pos hpos]

lemma allocationsCore_neg_branch (rows : List PRow) (Q : ℚ)
    (h : ¬ ((((exactShares rows Q).map roundHalfEven).sum : ℤ) : ℚ) = Q)
    (hnpos : ¬ 0 < ratTrunc (Q - ((((exactShares rows Q).map roundHalfEven).sum : ℤ) : ℚ)))
    (hneg : ratTrunc (Q - ((((exactShares rows Q).map roundHalfEven).sum : ℤ) : ℚ)) < 0) :
    allocationsCore rows Q
      = adjustAllocs ((exactShares rows Q).map roundHalfEven)
          ((pandasSortIdxAsc ((List.range rows.length).map (fun i =>
              (exactShares rows Q).getD i 0
                - ((((exactShares rows Q).map roundHalfEven).getD i 0 : ℚ) - 1)))).take
            (-(ratTrunc (Q - ((((exactShares rows Q).map roundHalfEven).sum : ℤ) : ℚ)))).toNat) (-1) := by
  simp only [allocationsCore]
  rw [if_neg h, if_neg hnpos, if_pos hneg]

lemma adjustAllocs_take_spec {n : ℕ} {R : ℕ → ℕ → Prop} {s : List ℕ} (Rd : List ℤ)
    (k : ℕ) (δ : ℤ) (hlenR : Rd.length = n)
    (hperm : s.Perm (List.range n)) (hpair : List.Pairwise R s) (hk : k ≤ n) :
    (s.take k).Nodup ∧ (∀ i ∈ s.take k, i < n) ∧ (s.take k).length = k ∧
      (adjustAllocs Rd (s.take k) δ).sum = Rd.sum + δ * k ∧
      (∀ i, i < n → (adjustAllocs Rd (s.take k) δ).getD i 0
          = Rd.getD i 0 + if i ∈ s.take k then δ else 0) ∧
      (∀ i ∈ s.take k, ∀ j, j < n → j ∉ s.take k → R i j) := by
  obtain ⟨hl, hnd, hb, hdom⟩ := take_of_sorted_perm_range k hperm hpair hk
  refine ⟨hnd, hb, hl, ?_, ?_, hdom⟩
  · rw [adjustAllocs_sum Rd _ δ hnd (fun i hi => by rw [hlenR]; exact hb i hi), hl]
  · intro i hin
    exact adjustAllocs_getD Rd _ δ (by rw [hlenR]; exact hin)

lemma allocationsCore_spec (rows : List PRow) (z : ℤ)
    (hsum : (rows.map (·.prop)).sum = 100) :
    ∃ chosen : List ℕ,
      chosen.Nodup ∧
      (∀ i ∈ chosen, i < rows.length) ∧
      ((chosen.length : ℤ) = |z - (roundedShares rows (z : ℚ)).sum|) ∧
      (∀ i, i < rows.length →
        (allocationsCore rows (z : ℚ)).getD i 0
          = (roundedShares rows (z : ℚ)).getD i 0
            + (if i ∈ chosen then
                (if 0 < z - (roundedShares rows (z : ℚ)).sum then 1 else -1) else 0)) ∧
      (0 < z - (roundedShares rows (z : ℚ)).sum →
        ∀ i ∈ chosen, ∀ j, j < rows.length → j ∉ chosen →
          (exactShares rows (z : ℚ)).getD j 0 - ((roundedShares rows (z : ℚ)).getD j 0 : ℚ)
            ≤ (exactShares rows (z : ℚ)).getD i 0
              - ((roundedShares rows (z : ℚ)).getD i 0 : ℚ)) ∧
      (z - (roundedShares rows (z : ℚ)).sum < 0 →
        ∀ i ∈ chosen, ∀ j, j < rows.length → j ∉ chosen →
          (exactShares rows (z : ℚ)).getD i 0 - ((roundedShares rows (z : ℚ)).getD i 0 : ℚ)
            ≤ (exactShares rows (z : ℚ)).getD j 0
              - ((roundedShares rows (z : ℚ)).getD j 0 : ℚ)) ∧
      (allocationsCore rows (z : ℚ)).sum = z := by
  simp only [roundedShares_def]
  have hES : (exactShares rows (z : ℚ)).sum = (z : ℚ) := exactShares_sum rows _ hsum
  have hlenE := exactShares_length rows (z : ℚ)
  have hlenR : ((exactShares rows (z : ℚ)).map roundHalfEven).length = rows.length := by
    simp [hlenE]
  have habs : |(z : ℚ) - ((((exactShares rows (z : ℚ)).map roundHalfEven).sum : ℤ) : ℚ)|
      ≤ (rows.length : ℚ) / 2 := by
    have h := abs_sum_sub_roundHalfEven (exactShares rows (z : ℚ))
    rw [hES, hlenE] at h
    exact h
  have habs' : |z - ((exactShares rows (z : ℚ)).map roundHalfEven).sum| ≤ (rows.length : ℤ) := by
    have hle : ((|z - ((exactShares rows (z : ℚ)).map roundHalfEven).sum| : ℤ) : ℚ)
        ≤ (rows.length : ℚ) := by
      rw [Int.cast_abs]
      push_cast
      push_cast at habs
      have hnn : (0 : ℚ) ≤ (rows.length : ℚ) := by positivity
      linarith
    exact_mod_cast hle
  by_cases hc : ((((exactShares rows (z : ℚ)).map roundHalfEven).sum : ℤ) : ℚ) = ((z : ℤ) : ℚ)
  · -- rounded sum already equals the requested total: no correction happens
    have hS : ((exactShares rows (z : ℚ)).map roundHalfEven).sum = z := by exact_mod_cast hc
    have hcore := allocationsCore_sum_branch rows (z : ℚ) hc
    have hd0 : z - ((exactShares rows (z : ℚ)).map roundHalfEven).sum = 0 := by
      rw [hS]; ring
    refine ⟨[], List.nodup_nil, by simp, by simp [hd0], ?_, ?_, ?_, ?_⟩
    · intro i _
      simp [hcore]
    · intro h
      rw [hd0] at h
      exact absurd h (lt_irrefl 0)
    · intro h
      rw [hd0] at h
      exact absurd h (lt_irrefl 0)
    · rw [hcore]
      exact hS
  · -- remainder correction
    have hz : ((exactShares rows (z : ℚ)).map roundHalfEven).sum ≠ z :=
      fun h => hc (by rw [h])
    have htr : ratTrunc ((z : ℚ) - ((((exactShares rows (z : ℚ)).map roundHalfEven).sum : ℤ) : ℚ))
        = z - ((exactShares rows (z : ℚ)).map roundHalfEven).sum := by
      have hcast : ((z : ℚ) - ((((exactShares rows (z : ℚ)).map roundHalfEven).sum : ℤ) : ℚ))
          = (((z - ((exactShares rows (z : ℚ)).map roundHalfEven).sum : ℤ)) : ℚ) := by
        push_cast
        ring
      rw [hcast, ratTrunc_intCast]
    have hdne : z - ((exactShares rows (z : ℚ)).map roundHalfEven).sum ≠ 0 :=
      fun h => hz (by omega)
    rcases lt_or_gt_of_ne hdne.symm with hdpos | hdneg
    · -- positive remainder: add 1 to the rows with the largest exact - rounded
      have hdposQ : 0 < z - ((exactShares rows (z : ℚ)).map roundHalfEven).sum := hdpos
      have hcore := allocationsCore_pos_branch rows (z : ℚ) hc (by rw [htr]; exact hdpos)
      rw [htr] at hcore
      have hfr : ((List.range rows.length).map (fun i =>
          (exactShares rows (z : ℚ)).getD i 0
            - (((exactShares rows (z : ℚ)).map roundHalfEven).getD i 0 : ℚ))).length
          = rows.length := by simp
      have hperm : (pandasSortIdxDesc ((List.range rows.length).map (fun i =>
          (exactShares rows (z : ℚ)).getD i 0
            - (((exactShares rows (z : ℚ)).map roundHalfEven).getD i 0 : ℚ)))).Perm
          (List.range rows.length) := by
        have h := pandasSortIdxDesc_perm ((List.range rows.length).map (fun i =>
          (exactShares rows (z : ℚ)).getD i 0
            - (((exactShares rows (z : ℚ)).map roundHalfEven).getD i 0 : ℚ)))
        rwa [hfr] at h
      have habs_eq : |z - ((exactShares rows (z : ℚ)).map roundHalfEven).sum|
          = z - ((exactShares rows (z : ℚ)).map roundHalfEven).sum := abs_of_pos hdpos
      have hdle : z - ((exactShares rows (z : ℚ)).map roundHalfEven).sum
          ≤ (rows.length : ℤ) := by rw [← habs_eq]; exact habs'
      have hk : (z - ((exactShares rows (z : ℚ)).map roundHalfEven).sum).toNat
          ≤ rows.length := by omega
      obtain ⟨hnd, hb, hl, hsm, hgd, hdom⟩ :=
        adjustAllocs_take_spec ((exactShares rows (z : ℚ)).map roundHalfEven)
          (z - ((exactShares rows (z : ℚ)).map roundHalfEven).sum).toNat 1 hlenR hperm
          (pandasSortIdxDesc_pairwise _) hk
      refine ⟨_, hnd, hb, ?_, ?_, ?_, ?_, ?_⟩
      · rw [hl, habs_eq]
        omega
      · intro i hi
        rw [hcore, hgd i hi, if_pos hdposQ]
      · intro _ i hi j hj hjn
        have h := hdom i hi j hj hjn
        have h1 : ((List.range rows.length).map (fun i =>
            (exactShares rows (z : ℚ)).getD i 0
              - (((exactShares rows (z : ℚ)).map roundHalfEven).getD i 0 : ℚ))).getD i 0
            = (exactShares rows (z : ℚ)).getD i 0
              - (((exactShares rows (z : ℚ)).map roundHalfEven).getD i 0 : ℚ) :=
          getD_map_range 0 _ (hb i hi)
        have h2 : ((List.range rows.length).map (fun i =>
            (exactShares rows (z : ℚ)).getD i 0
              - (((exactShares rows (z : ℚ)).map roundHalfEven).getD i 0 : ℚ))).getD j 0
            = (exactShares rows (z : ℚ)).getD j 0
              - (((exactShares rows (z : ℚ)).map roundHalfEven).getD j 0 : ℚ) :=
          getD_map_range 0 _ hj
        rw [h1, h2] at h
        exact h
      · intro h
        exact absurd h (by omega)
      · rw [hcore, hsm]
        omega
    · -- negative remainder: subtract 1 from the rows with the smallest exact - rounded
      have hdnegQ : z - ((exactShares rows (z : ℚ)).map roundHalfEven).sum < 0 := hdneg
      have hcore := allocationsCore_neg_branch rows (z : ℚ) hc
        (by rw [htr]; omega) (by rw [htr]; exact hdneg)
      rw [htr] at hcore
      have hfr : ((List.range rows.length).map (fun i =>
          (exactShares rows (z : ℚ)).getD i 0
            - ((((exactShares rows (z : ℚ)).map roundHalfEven).getD i 0 : ℚ) - 1))).length
          = rows.length := by simp
      have hperm : (pandasSortIdxAsc ((List.range rows.length).map (fun i =>
          (exactShares rows (z : ℚ)).getD i 0
            - ((((exactShares rows (z : ℚ)).map roundHalfEven).getD i 0 : ℚ) - 1)))).Perm
          (List.range rows.length) := by
        have h := pandasSortIdxAsc_perm ((List.range rows.length).map (fun i =>
          (exactShares rows (z : ℚ)).getD i 0
            - ((((exactShares rows (z : ℚ)).map roundHalfEven).getD i 0 : ℚ) - 1)))
        rwa [hfr] at h
      have habs_eq : |z - ((exactShares rows (z : ℚ)).map roundHalfEven).sum|
          = -(z - ((exactShares rows (z : ℚ)).map roundHalfEven).sum) := abs_of_neg hdneg
      have hdle : -(z - ((exactShares rows (z : ℚ)).map roundHalfEven).sum)
          ≤ (rows.length : ℤ) := by rw [← habs_eq]; exact habs'
      have hk : (-(z - ((exactShares rows (z : ℚ)).map roundHalfEven).sum)).toNat
          ≤ rows.length := by omega
      obtain ⟨hnd, hb, hl, hsm, hgd, hdom⟩ :=
        adjustAllocs_take_spec ((exactShares rows (z : ℚ)).map roundHalfEven)
          (-(z - ((exactShares rows (z : ℚ)).map roundHalfEven).sum)).toNat (-1) hlenR hperm
          (pandasSortIdxAsc_pairwise _) hk
      refine ⟨_, hnd, hb, ?_, ?_, ?_, ?_, ?_⟩
      · rw [hl, habs_eq]
        omega
      · intro i hi
        rw [hcore, hgd i hi, if_neg (by omega : ¬ 0 < z - ((exactShares rows (z : ℚ)).map roundHalfEven).sum)]
      · intro h
        exact absurd h (by omega)
      · intro _ i hi j hj hjn
        have h := hdom i hi j hj hjn
        have h1 : ((List.range rows.length).map (fun i =>
            (exactShares rows (z : ℚ)).getD i 0
              - ((((exactShares rows (z : ℚ)).map roundHalfEven).getD i 0 : ℚ) - 1))).getD i 0
            = (exactShares rows (z : ℚ)).getD i 0
              - ((((exactShares rows (z : ℚ)).map roundHalfEven).getD i 0 : ℚ) - 1) :=
          getD_map_range 0 _ (hb i hi)
        have h2 : ((List.range rows.length).map (fun i =>
            (exactShares rows (z : ℚ)).getD i 0
              - ((((exactShares rows (z : ℚ)).map roundHalfEven).getD i 0 : ℚ) - 1))).getD j 0
            = (exactShares rows (z : ℚ)).getD j 0
              - ((((exactShares rows (z : ℚ)).map roundHalfEven).getD j 0 : ℚ) - 1) :=
          getD_map_range 0 _ hj
        rw [h1, h2] at h
        linarith
      · rw [hcore, hsm]
        omega

lemma allocationsCore_length (rows : List PRow) (Q : ℚ) :
    (allocationsCore rows Q).length = rows.length := by
  simp only [allocationsCore]
  split
  · simp [exactShares]
  · split
    · rw [adjustAllocs_length]
      simp [exactShares]
    · split
      · rw [adjustAllocs_length]
        simp [exactShares]
      · simp [exactShares]

lemma map_alloc_zipWith (rows : List PRow) (allocs : List ℤ)
    (h : allocs.length = rows.length) :
    ((rows.zipWith (fun r a => ARow.mk r.dept r.quantity r.prop a) allocs).map (·.alloc))
      = allocs := by
  induction rows generalizing allocs with
  | nil =>
    cases allocs with
    | nil => rfl
    | cons a t => simp at h
  | cons r rs ih =>
    cases allocs with
    | nil => simp at h
    | cons a t =>
      simp only [List.zipWith_cons_cons, List.map_cons]
      rw [ih t (by simpa using h)]

lemma map_dept_zipWith (rows : List PRow) (allocs : List ℤ)
    (h : allocs.length = rows.length) :
    ((rows.zipWith (fun r a => ARow.mk r.dept r.quantity r.prop a) allocs).map (·.dept))
      = rows.map (·.dept) := by
  induction rows generalizing allocs with
  | nil =>
    cases allocs with
    | nil => rfl
    | cons a t => simp at h
  | cons r rs ih =>
    cases allocs with
    | nil => simp at h
    | cons a t =>
      simp only [List.zipWith_cons_cons, List.map_cons]
      rw [ih t (by simpa using h)]

lemma allocate_eq_some (rows : List PRow) (Q : ℚ)
    (h : (((allocationsCore rows Q).sum : ℤ) : ℚ) = Q) :
    allocate rows Q
      = some (rows.zipWith (fun r a => ARow.mk r.dept r.quantity r.prop a)
          (allocationsCore rows Q)) := by
  simp only [allocate]
  rw [if_pos h]

/-! ### C1: exact-sum invariant of the allocator -/

/-- C1: for every non-empty usage-proportion table whose shares sum to 100
and every non-negative integer total quantity, `allocate` succeeds (the
line-192 assertion holds) and the integer allocated quantities sum exactly
to the requested total. -/
theorem c1_allocate_exact_sum (rows : List PRow) (Q : ℕ) (hne : rows ≠ [])
    (hsum : (rows.map (·.prop)).sum = 100) :
    ∃ out, allocate rows (Q : ℚ) = some out ∧ (out.map (·.alloc)).sum = (Q : ℤ) := by
  obtain ⟨chosen, _, _, _, _, _, _, hsm⟩ := allocationsCore_spec rows (Q : ℤ) hsum
  have hQQ : (((Q : ℤ) : ℚ)) = ((Q : ℕ) : ℚ) := by push_cast; ring
  rw [hQQ] at hsm
  have hcast : (((allocationsCore rows (Q : ℚ)).sum : ℤ) : ℚ) = ((Q : ℕ) : ℚ) := by
    rw [hsm]
    push_cast
    ring
  refine ⟨_, allocate_eq_some rows (Q : ℚ) hcast, ?_⟩
  rw [map_alloc_zipWith rows _ (allocationsCore_length rows (Q : ℚ))]
  exact_mod_cast hsm

/-- Witness for C1 at the spec's concrete scenario (section 8, item 6):
shares B = 70, A = 30, total quantity 10. -/
theorem c1_allocate_exact_sum_witness :
    ∃ out, allocate [⟨"B", 70, 70⟩, ⟨"A", 30, 30⟩] ((10 : ℕ) : ℚ) = some out ∧
      (out.map (·.alloc)).sum = ((10 : ℕ) : ℤ) :=
  c1_allocate_exact_sum [⟨"B", 70, 70⟩, ⟨"A", 30, 30⟩] 10 (by simp) (by norm_num)

/-! ### C3: behaviour on non-integer requested totals -/

/-- C3 (refuting theorem): for every requested total that is not an integer,
the allocator's final integer sum cannot equal it, so the line-192 assertion
`final_sum == available_quantity` fires (modelled as `none`); the code never
rounds `available_quantity` beforehand, contrary to the claim. -/
theorem c3_nonint_total_asserts (rows : List PRow) (Q : ℚ)
    (h : ∀ z : ℤ, (z : ℚ) ≠ Q) : allocate rows Q = none := by
  simp only [allocate]
  exact if_neg (h _)

/-- Witness for C3: a single department with share 100 and requested total
2.5 (reachable in the UI, whose quantity input has step 0.1) makes the
assertion fire. -/
theorem c3_nonint_total_asserts_witness :
    allocate [⟨"A", 1, 100⟩] (5 / 2) = none :=
  c3_nonint_total_asserts _ _ (by
    intro z hz
    have h2 : (2 : ℚ) * (z : ℚ) = 5 := by rw [hz]; ring
    have h3 : (2 * z : ℤ) = 5 := by exact_mod_cast h2
    omega)

/-! ### C2: the remainder-distribution rule -/

/-- C2 (counterexample): at shares [26.5, 24.6, 24.5, 24.4] and total 10 the
rounded quantities are [3, 2, 2, 2] (sum 9, remainder +1).  The fractional
parts of the exact shares 2.65, 2.46, 2.45, 2.44 are 0.65, 0.46, 0.45, 0.44,
so the claim's rule sends the extra unit to the 26.5% department, giving
[4, 2, 2, 2]; the code instead maximises `exact - rounded` (it calls this
`fractional_parts`), which is -0.35 for the rounded-up 26.5% department, so
the unit goes to the 24.6% department, giving [3, 3, 2, 2]. -/
theorem c2_counterexample :
    (allocate [⟨"C", 0, 53 / 2⟩, ⟨"A", 0, 123 / 5⟩, ⟨"B", 0, 49 / 2⟩, ⟨"D", 0, 122 / 5⟩] 10).map
        (fun l => l.map (fun r => (r.dept, r.alloc)))
      = some [("C", 3), ("A", 3), ("B", 2), ("D", 2)] ∧
    ¬ (allocate [⟨"C", 0, 53 / 2⟩, ⟨"A", 0, 123 / 5⟩, ⟨"B", 0, 49 / 2⟩, ⟨"D", 0, 122 / 5⟩] 10).map
        (fun l => l.map (fun r => (r.dept, r.alloc)))
      = some [("C", 4), ("A", 2), ("B", 2), ("D", 2)] ∧
    (roundedShares [⟨"C", 0, 53 / 2⟩, ⟨"A", 0, 123 / 5⟩, ⟨"B", 0, 49 / 2⟩, ⟨"D", 0, 122 / 5⟩] 10).sum
      = 9 ∧
    (53 / 20 : ℚ) - (⌊(53 / 20 : ℚ)⌋ : ℚ) = 13 / 20 ∧
    (123 / 50 : ℚ) - (⌊(123 / 50 : ℚ)⌋ : ℚ) = 23 / 50 ∧
    (49 / 20 : ℚ) - (⌊(49 / 20 : ℚ)⌋ : ℚ) = 9 / 20 ∧
    (61 / 25 : ℚ) - (⌊(61 / 25 : ℚ)⌋ : ℚ) = 11 / 25 ∧
    (23 / 50 : ℚ) < 13 / 20 ∧ (9 / 20 : ℚ) < 13 / 20 ∧ (11 / 25 : ℚ) < 13 / 20 := by
  refine ⟨?_, ?_, ?_, by norm_num, by norm_num, by norm_num, by norm_num,
    by norm_num, by norm_num, by norm_num⟩ <;>
    norm_num [allocate, allocationsCore, exactShares, roundedShares, roundHalfEven, ratTrunc,
      adjustAllocs, pandasSortIdxDesc, pandasSortIdxAsc, List.mergeSort, List.merge,
      List.splitInTwo, List.range_succ, Bool.cond_eq_ite, decide_eq_true_eq]

/-- C2 (amended): when the rounded quantities do not sum to the total, the
code adds one unit to each of the `remainder` rows with the LARGEST values of
`exact - rounded` (for a positive remainder), or removes one unit from each
of the rows with the SMALLEST values of `exact - rounded` (for a negative
remainder) — not the fractional parts `exact - floor(exact)` of the claim;
in all cases exactly `|remainder|` distinct rows are adjusted by one unit. -/
theorem c2_amended_remainder_rule (rows : List PRow) (Q : ℕ) (hne : rows ≠ [])
    (hsum : (rows.map (·.prop)).sum = 100) :
    ∃ out, allocate rows (Q : ℚ) = some out ∧
      ∃ chosen : List ℕ,
        chosen.Nodup ∧ (∀ i ∈ chosen, i < rows.length) ∧
        ((chosen.length : ℤ) = |(Q : ℤ) - (roundedShares rows (Q : ℚ)).sum|) ∧
        (∀ i, i < rows.length →
          (out.map (·.alloc)).getD i 0
            = (roundedShares rows (Q : ℚ)).getD i 0
              + (if i ∈ chosen then
                  (if 0 < (Q : ℤ) - (roundedShares rows (Q : ℚ)).sum then 1 else -1)
                 else 0)) ∧
        (0 < (Q : ℤ) - (roundedShares rows (Q : ℚ)).sum →
          ∀ i ∈ chosen, ∀ j, j < rows.length → j ∉ chosen →
            (exactShares rows (Q : ℚ)).getD j 0 - ((roundedShares rows (Q : ℚ)).getD j 0 : ℚ)
              ≤ (exactShares rows (Q : ℚ)).getD i 0
                - ((roundedShares rows (Q : ℚ)).getD i 0 : ℚ)) ∧
        ((Q : ℤ) - (roundedShares rows (Q : ℚ)).sum < 0 →
          ∀ i ∈ chosen, ∀ j, j < rows.length → j ∉ chosen →
            (exactShares rows (Q : ℚ)).getD i 0 - ((roundedShares rows (Q : ℚ)).getD i 0 : ℚ)
              ≤ (exactShares rows (Q : ℚ)).getD j 0
                - ((roundedShares rows (Q : ℚ)).getD j 0 : ℚ)) := by
  obtain ⟨chosen, h1, h2, h3, h4, h5, h6, h7⟩ := allocationsCore_spec rows (Q : ℤ) hsum
  have hQQ : (((Q : ℤ) : ℚ)) = ((Q : ℕ) : ℚ) := by push_cast; ring
  rw [hQQ] at h3 h4 h5 h6 h7
  have hcast : (((allocationsCore rows (Q : ℚ)).sum : ℤ) : ℚ) = ((Q : ℕ) : ℚ) := by
    rw [h7]
    push_cast
    ring
  refine ⟨_, allocate_eq_some rows (Q : ℚ) hcast, chosen, h1, h2, h3, ?_, h5, h6⟩
  rw [map_alloc_zipWith rows _ (allocationsCore_length rows (Q : ℚ))]
  exact h4

/-- Witness for C2 (amended) at the spec's remainder scenario (section 8,
item 7): shares [33.33, 33.33, 33.34], total 10. -/
theorem c2_amended_remainder_rule_witness :
    ∃ out, allocate [⟨"A", 0, 3333 / 100⟩, ⟨"B", 0, 3333 / 100⟩, ⟨"C", 0, 3334 / 100⟩]
        ((10 : ℕ) : ℚ) = some out ∧
      ∃ chosen : List ℕ,
        chosen.Nodup ∧
        (∀ i ∈ chosen,
          i < ([⟨"A", 0, 3333 / 100⟩, ⟨"B", 0, 3333 / 100⟩, ⟨"C", 0, 3334 / 100⟩] : List PRow).length) ∧
        ((chosen.length : ℤ)
          = |(10 : ℤ) - (roundedShares [⟨"A", 0, 3333 / 100⟩, ⟨"B", 0, 3333 / 100⟩, ⟨"C", 0, 3334 / 100⟩]
                ((10 : ℕ) : ℚ)).sum|) ∧
        (∀ i, i < ([⟨"A", 0, 3333 / 100⟩, ⟨"B", 0, 3333 / 100⟩, ⟨"C", 0, 3334 / 100⟩] : List PRow).length →
          (out.map (·.alloc)).getD i 0
            = (roundedShares [⟨"A", 0, 3333 / 100⟩, ⟨"B", 0, 3333 / 100⟩, ⟨"C", 0, 3334 / 100⟩]
                ((10 : ℕ) : ℚ)).getD i 0
              + (if i ∈ chosen then
                  (if 0 < (10 : ℤ) - (roundedShares [⟨"A", 0, 3333 / 100⟩, ⟨"B", 0, 3333 / 100⟩, ⟨"C", 0, 3334 / 100⟩]
                      ((10 : ℕ) : ℚ)).sum then 1 else -1)
                 else 0)) ∧
        (0 < (10 : ℤ) - (roundedShares [⟨"A", 0, 3333 / 100⟩, ⟨"B", 0, 3333 / 100⟩, ⟨"C", 0, 3334 / 100⟩]
            ((10 : ℕ) : ℚ)).sum →
          ∀ i ∈ chosen, ∀ j,
            j < ([⟨"A", 0, 3333 / 100⟩, ⟨"B", 0, 3333 / 100⟩, ⟨"C", 0, 3334 / 100⟩] : List PRow).length →
            j ∉ chosen →
            (exactShares [⟨"A", 0, 3333 / 100⟩, ⟨"B", 0, 3333 / 100⟩, ⟨"C", 0, 3334 / 100⟩]
                ((10 : ℕ) : ℚ)).getD j 0
              - ((roundedShares [⟨"A", 0, 3333 / 100⟩, ⟨"B", 0, 3333 / 100⟩, ⟨"C", 0, 3334 / 100⟩]
                  ((10 : ℕ) : ℚ)).getD j 0 : ℚ)
              ≤ (exactShares [⟨"A", 0, 3333 / 100⟩, ⟨"B", 0, 3333 / 100⟩, ⟨"C", 0, 3334 / 100⟩]
                  ((10 : ℕ) : ℚ)).getD i 0
                - ((roundedShares [⟨"A", 0, 3333 / 100⟩, ⟨"B", 0, 3333 / 100⟩, ⟨"C", 0, 3334 / 100⟩]
                    ((10 : ℕ) : ℚ)).getD i 0 : ℚ)) ∧
        ((10 : ℤ) - (roundedShares [⟨"A", 0, 3333 / 100⟩, ⟨"B", 0, 3333 / 100⟩, ⟨"C", 0, 3334 / 100⟩]
            ((10 : ℕ) : ℚ)).sum < 0 →
          ∀ i ∈ chosen, ∀ j,
            j < ([⟨"A", 0, 3333 / 100⟩, ⟨"B", 0, 3333 / 100⟩, ⟨"C", 0, 3334 / 100⟩] : List PRow).length →
            j ∉ chosen →
            (exactShares [⟨"A", 0, 3333 / 100⟩, ⟨"B", 0, 3333 / 100⟩, ⟨"C", 0, 3334 / 100⟩]
                ((10 : ℕ) : ℚ)).getD i 0
              - ((roundedShares [⟨"A", 0, 3333 / 100⟩, ⟨"B", 0, 3333 / 100⟩, ⟨"C", 0, 3334 / 100⟩]
                  ((10 : ℕ) : ℚ)).getD i 0 : ℚ)
              ≤ (exactShares [⟨"A", 0, 3333 / 100⟩, ⟨"B", 0, 3333 / 100⟩, ⟨"C", 0, 3334 / 100⟩]
                  ((10 : ℕ) : ℚ)).getD j 0
                - ((roundedShares [⟨"A", 0, 3333 / 100⟩, ⟨"B", 0, 3333 / 100⟩, ⟨"C", 0, 3334 / 100⟩]
                    ((10 : ℕ) : ℚ)).getD j 0 : ℚ)) :=
  c2_amended_remainder_rule
    [⟨"A", 0, 3333 / 100⟩, ⟨"B", 0, 3333 / 100⟩, ⟨"C", 0, 3334 / 100⟩] 10
    (by simp) (by norm_num)

/-! ### Grouping lemmas -/

lemma applyDeptFilter_nil (department : Option String) : applyDeptFilter department [] = [] := by
  cases department <;> simp [applyDeptFilter]

lemma applyDeptFilter_sublist (department : Option String) (l : List Record) :
    (applyDeptFilter department l).Sublist l := by
  cases department with
  | none => exact List.Sublist.refl l
  | some d =>
    simp only [applyDeptFilter]
    split
    · exact List.Sublist.refl l
    · exact List.filter_sublist l

lemma deptKeys_nodup (l : List Record) : (deptKeys l).Nodup :=
  (List.mergeSort_perm _ _).symm.nodup (List.nodup_dedup _)

lemma deptKeys_mem (l : List Record) (r : Record) (h : r ∈ l) : r.dept ∈ deptKeys l := by
  unfold deptKeys
  rw [(List.mergeSort_perm _ _).mem_iff, List.mem_dedup]
  exact List.mem_map_of_mem _ h

lemma sum_filter_partition (l : List Record) (k : String) :
    ((l.filter (fun r => r.dept == k)).map (·.quantity)).sum
      + ((l.filter (fun r => !(r.dept == k))).map (·.quantity)).sum
      = (l.map (·.quantity)).sum := by
  have hperm := (List.filter_append_perm (fun r => r.dept == k) l).map (·.quantity)
  have hs := hperm.sum_eq
  rw [List.map_append, List.sum_append] at hs
  exact hs

lemma groupSums_eq_total (keys : List String) (l : List Record)
    (hnd : keys.Nodup) (hcov : ∀ r ∈ l, r.dept ∈ keys) :
    (keys.map (fun d => ((l.filter (fun r => r.dept == d)).map (·.quantity)).sum)).sum
      = (l.map (·.quantity)).sum := by
  induction keys generalizing l with
  | nil =>
    cases l with
    | nil => simp
    | cons r t => exact absurd (hcov r (by simp)) (by simp)
  | cons k ks ih =>
    have hkks : k ∉ ks := (List.nodup_cons.mp hnd).1
    have hswap : ∀ d ∈ ks,
        ((l.filter (fun r => r.dept == d)).map (·.quantity)).sum
          = (((l.filter (fun r => !(r.dept == k))).filter (fun r => r.dept == d)).map
              (·.quantity)).sum := by
      intro d hd
      have hdk : d ≠ k := fun hdk => hkks (hdk ▸ hd)
      rw [List.filter_filter]
      have : l.filter (fun r => r.dept == d)
          = l.filter (fun r => (r.dept == d) && !(r.dept == k)) := by
        refine List.filter_congr ?_
        intro r _
        by_cases hrd : r.dept = d
        · simp [hrd, hdk]
        · simp [hrd]
      rw [this]
    simp only [List.map_cons, List.sum_cons]
    rw [List.map_congr_left hswap,
      ih (l.filter (fun r => !(r.dept == k))) (List.nodup_cons.mp hnd).2 ?_,
      sum_filter_partition]
    intro r hr
    have hrl : r ∈ l := (List.mem_filter.mp hr).1
    have hrk : ¬ r.dept = k := by
      have := (List.mem_filter.mp hr).2
      simpa using this
    have := hcov r hrl
    simp only [List.mem_cons] at this
    rcases this with h | h
    · exact absurd h hrk
    · exact h

lemma groupDepts_total (l : List Record) :
    ((groupDepts l).map (·.2)).sum = (l.map (·.quantity)).sum := by
  unfold groupDepts
  rw [List.map_map]
  exact groupSums_eq_total (deptKeys l) l (deptKeys_nodup l) (deptKeys_mem l)

/-! ### C5: NOT_FOUND conditions -/

/-- C5: `calculate_proportion` returns NOT_FOUND (Python `None`, modelled as
`none`) exactly when no record matches the identifier (and the department
filter, when one applies), or when the matching records' summed quantity is
zero; the result is an ordinary value the caller branches on. -/
theorem c5_not_found_iff (df : List Record) (identifier : String)
    (department : Option String) (min_proportion : ℚ) :
    calculate_proportion df identifier department min_proportion = none ↔
      (applyDeptFilter department (df.filter (matchesIdentifier identifier)) = [] ∨
       ((applyDeptFilter department (df.filter (matchesIdentifier identifier))).map
          (·.quantity)).sum = 0) := by
  simp only [calculate_proportion, aggregateFiltered]
  by_cases h1 : (df.filter (matchesIdentifier identifier)).isEmpty
  · rw [if_pos h1]
    have hF : df.filter (matchesIdentifier identifier) = [] := List.isEmpty_iff.mp h1
    simp [hF, applyDeptFilter_nil]
  · rw [if_neg h1]
    by_cases h2 : (applyDeptFilter department (df.filter (matchesIdentifier identifier))).isEmpty
    · rw [if_pos h2]
      simp [List.isEmpty_iff.mp h2]
    · rw [if_neg h2]
      have hne : applyDeptFilter department (df.filter (matchesIdentifier identifier)) ≠ [] :=
        fun h => h2 (by simp [h])
      by_cases h3 : ((groupDepts (applyDeptFilter department
          (df.filter (matchesIdentifier identifier)))).map (·.2)).sum = 0
      · rw [if_pos h3]
        rw [groupDepts_total] at h3
        simp [h3]
      · rw [if_neg h3]
        rw [groupDepts_total] at h3
        simp [hne, h3]

/-! ### Argmax and threshold lemmas -/

lemma argmax_foldl_mem (b : PRow) (l : List PRow) :
    l.foldl (fun best x => if best.prop < x.prop then x else best) b ∈ b :: l := by
  induction l generalizing b with
  | nil => simp
  | cons x xs ih =>
    simp only [List.foldl_cons]
    by_cases hbx : b.prop < x.prop
    · rw [if_pos hbx]
      have h := ih x
      simp only [List.mem_cons] at h ⊢
      tauto
    · rw [if_neg hbx]
      have h := ih b
      simp only [List.mem_cons] at h ⊢
      tauto

lemma argmax_foldl_le (b : PRow) (l : List PRow) :
    ∀ r ∈ b :: l, r.prop ≤ (l.foldl (fun best x => if best.prop < x.prop then x else best) b).prop := by
  induction l generalizing b with
  | nil =>
    intro r hr
    simp only [List.mem_cons, List.not_mem_nil, or_false] at hr
    subst hr
    simp
  | cons x xs ih =>
    intro r hr
    simp only [List.foldl_cons]
    rcases List.mem_cons.mp hr with hrb | hrx
    · subst hrb
      by_cases hbx : r.prop < x.prop
      · rw [if_pos hbx]
        exact le_trans (le_of_lt hbx) (ih x x (by simp))
      · rw [if_neg hbx]
        exact ih r r (by simp)
    · rcases List.mem_cons.mp hrx with hrx' | hrxs
      · subst hrx'
        by_cases hbx : b.prop < r.prop
        · rw [if_pos hbx]
          exact ih r r (by simp)
        · rw [if_neg hbx]
          exact le_trans (not_lt.mp hbx) (ih b b (by simp))
      · by_cases hbx : b.prop < x.prop
        · rw [if_pos hbx]
          exact ih x r (by simp [hrxs])
        · rw [if_neg hbx]
          exact ih b r (by simp [hrxs])

lemma argmaxRow_mem (rows : List PRow) (h : rows ≠ []) : argmaxRow rows ∈ rows := by
  cases rows with
  | nil => exact absurd rfl h
  | cons r rs => exact argmax_foldl_mem r rs

lemma argmaxRow_le (rows : List PRow) (h : rows ≠ []) :
    ∀ r ∈ rows, r.prop ≤ (argmaxRow rows).prop := by
  cases rows with
  | nil =>
    intro r hr
    simp at hr
  | cons r rs => exact argmax_foldl_le r rs

lemma argmaxRow_prop_pos (rows : List PRow) (hsum : (rows.map (·.prop)).sum = 100) :
    0 < (argmaxRow rows).prop := by
  have hne : rows ≠ [] := by
    intro h
    rw [h] at hsum
    norm_num at hsum
  by_contra hle
  push_neg at hle
  have hmax := argmaxRow_le rows hne
  have hall : ∀ x ∈ rows.map (·.prop), x ≤ (0 : ℚ) := by
    intro x hx
    obtain ⟨r, hr, rfl⟩ := List.mem_map.mp hx
    exact le_trans (hmax r hr) hle
  have h2 := List.sum_le_card_nsmul (rows.map (·.prop)) 0 hall
  rw [hsum] at h2
  simp only [smul_zero] at h2
  linarith

/-- The renormalized table of lines 126-135, with its defining branch facts
split out: either the significant rows are nonempty and kept, or the
first-argmax fallback row is kept. -/
lemma thresholdRenormalize_cases (mp : ℚ) (rows : List PRow) :
    (rows.filter (fun r => mp ≤ r.prop) ≠ [] ∧
      thresholdRenormalize mp rows
        = (rows.filter (fun r => mp ≤ r.prop)).map (fun r =>
            { r with prop := r.prop / (((rows.filter (fun r => mp ≤ r.prop)).map (·.prop)).sum) * 100 })) ∨
    (rows.filter (fun r => mp ≤ r.prop) = [] ∧ rows ≠ [] ∧
      thresholdRenormalize mp rows
        = [{ argmaxRow rows with prop := (argmaxRow rows).prop / (argmaxRow rows).prop * 100 }]) ∨
    (rows = [] ∧ thresholdRenormalize mp rows = []) := by
  by_cases hsig : rows.filter (fun r => mp ≤ r.prop) = []
  · by_cases hrows : rows = []
    · right; right
      exact ⟨hrows, by subst hrows; rfl⟩
    · right; left
      refine ⟨hsig, hrows, ?_⟩
      have hre : rows.isEmpty = false := by simpa [List.isEmpty_iff] using hrows
      simp [thresholdRenormalize, hsig, hre]
  · left
    refine ⟨hsig, ?_⟩
    have h1 : (rows.filter (fun r => mp ≤ r.prop)).isEmpty = false := by
      simpa [List.isEmpty_iff] using hsig
    simp [thresholdRenormalize, h1]

lemma thresholdRenormalize_total_pos (mp : ℚ) (rows : List PRow) (hmp : 0 ≤ mp)
    (hsum : (rows.map (·.prop)).sum = 100)
    (hsig : rows.filter (fun r => mp ≤ r.prop) ≠ []) :
    0 < ((rows.filter (fun r => mp ≤ r.prop)).map (·.prop)).sum := by
  rcases eq_or_lt_of_le hmp with hmp0 | hmppos
  · -- threshold zero: dropped rows all have negative proportion
    have hpart := ((List.filter_append_perm (fun r => mp ≤ r.prop) rows).map (·.prop)).sum_eq
    rw [List.map_append, List.sum_append, hsum] at hpart
    have hdrop : ((rows.filter (fun r => !(mp ≤ r.prop : Bool))).map (·.prop)).sum ≤ 0 := by
      refine le_trans (List.sum_le_card_nsmul _ 0 ?_) (by simp)
      intro x hx
      obtain ⟨r, hr, rfl⟩ := List.mem_map.mp hx
      have := (List.mem_filter.mp hr).2
      simp only [Bool.not_eq_true', decide_eq_false_iff_not, not_le] at this
      linarith
    linarith
  · -- positive threshold: every kept row has proportion at least mp > 0
    have hall : ∀ x ∈ (rows.filter (fun r => mp ≤ r.prop)).map (·.prop), mp ≤ x := by
      intro x hx
      obtain ⟨r, hr, rfl⟩ := List.mem_map.mp hx
      have := (List.mem_filter.mp hr).2
      simpa using this
    have hlb := List.card_nsmul_le_sum ((rows.filter (fun r => mp ≤ r.prop)).map (·.prop)) mp hall
    have hlen : 1 ≤ ((rows.filter (fun r => mp ≤ r.prop)).map (·.prop)).length := by
      rcases h : rows.filter (fun r => mp ≤ r.prop) with _ | ⟨a, t⟩
      · exact absurd h hsig
      · simp [h]
    have : (1 : ℚ) * mp ≤ (((rows.filter (fun r => mp ≤ r.prop)).map (·.prop)).length : ℚ) * mp := by
      have : (1 : ℚ) ≤ (((rows.filter (fun r => mp ≤ r.prop)).map (·.prop)).length : ℚ) := by
        exact_mod_cast hlen
      nlinarith
    have hsmul : (((rows.filter (fun r => mp ≤ r.prop)).map (·.prop)).length : ℚ) * mp
        ≤ ((rows.filter (fun r => mp ≤ r.prop)).map (·.prop)).sum := by
      have := hlb
      rwa [nsmul_eq_mul] at this
    linarith

lemma thresholdRenormalize_sum (mp : ℚ) (rows : List PRow) (hmp : 0 ≤ mp)
    (hsum : (rows.map (·.prop)).sum = 100) :
    ((thresholdRenormalize mp rows).map (·.prop)).sum = 100 := by
  rcases thresholdRenormalize_cases mp rows with ⟨hsig, heq⟩ | ⟨hsig, hrows, heq⟩ | ⟨hrows, heq⟩
  · rw [heq, List.map_map]
    have hS := thresholdRenormalize_total_pos mp rows hmp hsum hsig
    have hmapeq : (rows.filter (fun r => mp ≤ r.prop)).map
        ((fun s : PRow => s.prop) ∘ (fun r : PRow =>
          { r with prop := r.prop / (((rows.filter (fun r => mp ≤ r.prop)).map (·.prop)).sum) * 100 }))
        = (rows.filter (fun r => mp ≤ r.prop)).map (fun r : PRow =>
            r.prop * (100 / (((rows.filter (fun r => mp ≤ r.prop)).map (·.prop)).sum))) := by
      refine List.map_congr_left ?_
      intro r _
      simp only [Function.comp]
      ring
    rw [hmapeq, List.sum_map_mul_right]
    have hS' : (((rows.filter (fun r => mp ≤ r.prop)).map (·.prop)).sum) ≠ 0 := ne_of_gt hS
    field_simp
  · rw [heq]
    have hpos := argmaxRow_prop_pos rows hsum
    have hne0 : (argmaxRow rows).prop ≠ 0 := ne_of_gt hpos
    simp only [List.map_cons, List.map_nil, List.sum_cons, List.sum_nil, add_zero]
    rw [div_self hne0]
    norm_num
  · rw [hrows] at hsum
    norm_num at hsum

lemma pandasSortDescByProp_perm (rows : List PRow) :
    (pandasSortDescByProp rows).Perm rows :=
  (List.reverse_perm _).trans (List.mergeSort_perm _ _)

lemma pandasSortDescByProp_singleton (r : PRow) : pandasSortDescByProp [r] = [r] := by
  unfold pandasSortDescByProp
  rw [List.mergeSort_of_sorted (List.pairwise_singleton _ r)]
  rfl

lemma calculate_proportion_some (df : List Record) (identifier : String)
    (department : Option String) (mp : ℚ) (out : List PRow)
    (h : calculate_proportion df identifier department mp = some out) :
    out = pandasSortDescByProp (thresholdRenormalize mp (preProportions df identifier department)) ∧
    applyDeptFilter department (df.filter (matchesIdentifier identifier)) ≠ [] ∧
    ((groupDepts (applyDeptFilter department (df.filter (matchesIdentifier identifier)))).map
        (·.2)).sum ≠ 0 := by
  simp only [calculate_proportion, aggregateFiltered] at h
  by_cases h1 : (df.filter (matchesIdentifier identifier)).isEmpty
  · rw [if_pos h1] at h
    exact absurd h (by simp)
  · rw [if_neg h1] at h
    by_cases h2 : (applyDeptFilter department (df.filter (matchesIdentifier identifier))).isEmpty
    · rw [if_pos h2] at h
      exact absurd h (by simp)
    · rw [if_neg h2] at h
      by_cases h3 : ((groupDepts (applyDeptFilter department
          (df.filter (matchesIdentifier identifier)))).map (·.2)).sum = 0
      · rw [if_pos h3] at h
        exact absurd h (by simp)
      · rw [if_neg h3] at h
        exact ⟨(Option.some_inj.mp h).symm, fun hc => h2 (by simp [hc]), h3⟩

lemma preProportions_sum (df : List Record) (identifier : String) (department : Option String)
    (h : ((groupDepts (applyDeptFilter department (df.filter (matchesIdentifier identifier)))).map
        (·.2)).sum ≠ 0) :
    ((preProportions df identifier department).map (·.prop)).sum = 100 := by
  simp only [preProportions, withProportions]
  rw [List.map_map]
  have hmapeq : (groupDepts (applyDeptFilter department (df.filter (matchesIdentifier identifier)))).map
      ((fun s : PRow => s.prop) ∘ (fun p : String × ℚ =>
        ⟨p.1, p.2, p.2 / (((groupDepts (applyDeptFilter department
          (df.filter (matchesIdentifier identifier)))).map (·.2)).sum) * 100⟩))
      = (groupDepts (applyDeptFilter department (df.filter (matchesIdentifier identifier)))).map
          (fun p : String × ℚ => p.2 * (100 / (((groupDepts (applyDeptFilter department
            (df.filter (matchesIdentifier identifier)))).map (·.2)).sum))) := by
    refine List.map_congr_left ?_
    intro p _
    simp only [Function.comp]
    ring
  rw [hmapeq, List.sum_map_mul_right]
  field_simp

lemma preProportions_ne_nil (df : List Record) (identifier : String) (department : Option String)
    (h : ((groupDepts (applyDeptFilter department (df.filter (matchesIdentifier identifier)))).map
        (·.2)).sum ≠ 0) :
    preProportions df identifier department ≠ [] := by
  intro hc
  have hg : groupDepts (applyDeptFilter department (df.filter (matchesIdentifier identifier))) = [] := by
    have h2 := hc
    simp only [preProportions, withProportions] at h2
    exact List.map_eq_nil_iff.mp h2
  rw [hg] at h
  simp at h

lemma withProportions_map_dept (g : List (String × ℚ)) (total : ℚ) :
    (withProportions g total).map (·.dept) = g.map (·.1) := by
  unfold withProportions
  rw [List.map_map]
  rfl

lemma groupDepts_map_fst (l : List Record) : (groupDepts l).map (·.1) = deptKeys l := by
  unfold groupDepts
  rw [List.map_map]
  have h : ∀ d ∈ deptKeys l, (((fun p : String × ℚ => p.1) ∘ (fun d =>
      (d, ((l.filter (fun r => r.dept == d)).map (·.quantity)).sum)))) d = d :=
    fun d _ => rfl
  rw [List.map_congr_left h]
  simp

lemma preProportions_dept_nodup (df : List Record) (identifier : String)
    (department : Option String) :
    ((preProportions df identifier department).map (·.dept)).Nodup := by
  simp only [preProportions]
  rw [withProportions_map_dept, groupDepts_map_fst]
  exact deptKeys_nodup _

lemma calculate_proportion_excludes (df : List Record) (identifier : String)
    (department : Option String) (mp : ℚ) (out : List PRow)
    (h : calculate_proportion df identifier department mp = some out)
    (hex : ∃ r ∈ preProportions df identifier department, mp ≤ r.prop) :
    ∀ r ∈ preProportions df identifier department, r.prop < mp →
      r.dept ∉ out.map (·.dept) := by
  obtain ⟨hout, _, hT⟩ := calculate_proportion_some df identifier department mp out h
  have hprene := preProportions_ne_nil df identifier department hT
  obtain ⟨r0, hr0, hr0p⟩ := hex
  intro r hr hrlt hmem
  have hsig : (preProportions df identifier department).filter (fun r => mp ≤ r.prop) ≠ [] := by
    intro hc
    have h2 := List.filter_eq_nil_iff.mp hc r0 hr0
    simp [hr0p] at h2
  rcases thresholdRenormalize_cases mp (preProportions df identifier department) with
    ⟨_, heq⟩ | ⟨hsig0, _, _⟩ | ⟨hrows0, _⟩
  · rw [hout, heq] at hmem
    rw [((pandasSortDescByProp_perm _).map (fun s : PRow => s.dept)).mem_iff,
      List.map_map] at hmem
    obtain ⟨s, hs, hsd⟩ := List.mem_map.mp hmem
    have hsd' : s.dept = r.dept := hsd
    have hspre : s ∈ preProportions df identifier department := (List.mem_filter.mp hs).1
    have hsge : mp ≤ s.prop := by
      have h2 := (List.mem_filter.mp hs).2
      simpa using h2
    have hsr : s = r :=
      List.inj_on_of_nodup_map (preProportions_dept_nodup df identifier department)
        hspre hr hsd'
    rw [hsr] at hsge
    linarith
  · exact absurd hsig0 hsig
  · exact absurd hrows0 hprene

lemma calculate_proportion_fallback (df : List Record) (identifier : String)
    (department : Option String) (mp : ℚ) (out : List PRow)
    (h : calculate_proportion df identifier department mp = some out)
    (hall : ∀ r ∈ preProportions df identifier department, r.prop < mp) :
    ∃ r ∈ preProportions df identifier department,
      (∀ r' ∈ preProportions df identifier department, r'.prop ≤ r.prop) ∧
      out = [⟨r.dept, r.quantity, 100⟩] := by
  obtain ⟨hout, _, hT⟩ := calculate_proportion_some df identifier department mp out h
  have hprene := preProportions_ne_nil df identifier department hT
  have hpre100 := preProportions_sum df identifier department hT
  have hsig : (preProportions df identifier department).filter (fun r => mp ≤ r.prop) = [] := by
    refine List.filter_eq_nil_iff.mpr ?_
    intro r hr
    simp only [decide_eq_true_eq]
    exact not_le.mpr (hall r hr)
  rcases thresholdRenormalize_cases mp (preProportions df identifier department) with
    ⟨hsig0, _⟩ | ⟨_, _, heq⟩ | ⟨hrows0, _⟩
  · exact absurd hsig hsig0
  · refine ⟨argmaxRow (preProportions df identifier department), argmaxRow_mem _ hprene,
      argmaxRow_le _ hprene, ?_⟩
    rw [hout, heq, pandasSortDescByProp_singleton]
    have hpos := argmaxRow_prop_pos (preProportions df identifier department) hpre100
    have hv : (argmaxRow (preProportions df identifier department)).prop
        / (argmaxRow (preProportions df identifier department)).prop * 100 = 100 := by
      rw [div_self (ne_of_gt hpos)]
      norm_num
    rw [hv]
  · exact absurd hrows0 hprene

/-! ### C4: threshold filtering and renormalization -/

/-- C4: on every successful aggregation with a non-negative threshold, the
renormalized shares of the output sum to exactly 100 (hence within the 1e-6
tolerance), departments whose pre-renormalization share is strictly below the
threshold are excluded whenever some department meets the threshold, and when
no department meets it the single first row of maximal share is kept. -/
theorem c4_threshold_filter_renormalize (df : List Record) (identifier : String)
    (department : Option String) (mp : ℚ) (out : List PRow) (hmp : 0 ≤ mp)
    (h : calculate_proportion df identifier department mp = some out) :
    ((out.map (·.prop)).sum = 100) ∧
    ((∃ r ∈ preProportions df identifier department, mp ≤ r.prop) →
      ∀ r ∈ preProportions df identifier department, r.prop < mp →
        r.dept ∉ out.map (·.dept)) ∧
    ((∀ r ∈ preProportions df identifier department, r.prop < mp) →
      ∃ r ∈ preProportions df identifier department,
        (∀ r' ∈ preProportions df identifier department, r'.prop ≤ r.prop) ∧
        out.map (·.dept) = [r.dept]) := by
  obtain ⟨hout, hF2, hT⟩ := calculate_proportion_some df identifier department mp out h
  have hpre100 := preProportions_sum df identifier department hT
  refine ⟨?_, ?_, ?_⟩
  · have hperm : (out.map (·.prop)).Perm
        ((thresholdRenormalize mp (preProportions df identifier department)).map (·.prop)) := by
      rw [hout]
      exact (pandasSortDescByProp_perm _).map _
    rw [hperm.sum_eq]
    exact thresholdRenormalize_sum mp _ hmp hpre100
  · exact fun hex => calculate_proportion_excludes df identifier department mp out h hex
  · intro hall
    obtain ⟨r, hrmem, hrmax, hout1⟩ :=
      calculate_proportion_fallback df identifier department mp out h hall
    exact ⟨r, hrmem, hrmax, by rw [hout1]; simp⟩

/-- Witness for C4 at the spec's concrete scenario (section 8, item 6):
records A = 30, B = 70 for item "flour", threshold 1. -/
theorem c4_threshold_filter_renormalize_witness :
    ((([⟨"B", 70, 70⟩, ⟨"A", 30, 30⟩] : List PRow).map (·.prop)).sum = 100) ∧
    ((∃ r ∈ preProportions [⟨"1", "flour", "A", 30⟩, ⟨"2", "flour", "B", 70⟩] "flour" none,
        (1 : ℚ) ≤ r.prop) →
      ∀ r ∈ preProportions [⟨"1", "flour", "A", 30⟩, ⟨"2", "flour", "B", 70⟩] "flour" none,
        r.prop < 1 → r.dept ∉ ([⟨"B", 70, 70⟩, ⟨"A", 30, 30⟩] : List PRow).map (·.dept)) ∧
    ((∀ r ∈ preProportions [⟨"1", "flour", "A", 30⟩, ⟨"2", "flour", "B", 70⟩] "flour" none,
        r.prop < 1) →
      ∃ r ∈ preProportions [⟨"1", "flour", "A", 30⟩, ⟨"2", "flour", "B", 70⟩] "flour" none,
        (∀ r' ∈ preProportions [⟨"1", "flour", "A", 30⟩, ⟨"2", "flour", "B", 70⟩] "flour" none,
          r'.prop ≤ r.prop) ∧
        ([⟨"B", 70, 70⟩, ⟨"A", 30, 30⟩] : List PRow).map (·.dept) = [r.dept]) :=
  c4_threshold_filter_renormalize [⟨"1", "flour", "A", 30⟩, ⟨"2", "flour", "B", 70⟩] "flour"
    none 1 [⟨"B", 70, 70⟩, ⟨"A", 30, 30⟩] (by norm_num) (by
      simp +decide [calculate_proportion, aggregateFiltered, matchesIdentifier, pyIsNumeric,
        pyLower, lowerChar, applyDeptFilter, groupDepts, deptKeys, withProportions,
        thresholdRenormalize, argmaxRow, pandasSortDescByProp, List.mergeSort, List.merge,
        List.splitInTwo, List.dedup, List.pwFilter, charListLe]
      norm_num [List.mergeSort, List.merge, List.splitInTwo, Bool.cond_eq_ite,
        decide_eq_true_eq])

/-! ### C7: output ordering -/

/-- C7 (counterexample): for two departments A and B with equal usage of
"flour" the grouping order is [A, B], but the result lists B before A: pandas
`sort_values(ascending=False)` reverses tied rows rather than keeping their
original (stable) order. -/
theorem c7_counterexample :
    calculate_proportion [⟨"1", "flour", "A", 5⟩, ⟨"2", "flour", "B", 5⟩] "flour" none 1
      = some [⟨"B", 5, 50⟩, ⟨"A", 5, 50⟩] ∧
    (groupDepts [⟨"1", "flour", "A", 5⟩, ⟨"2", "flour", "B", 5⟩]).map (·.1) = ["A", "B"] ∧
    (["B", "A"] : List String) ≠ ["A", "B"] := by
  refine ⟨?_, ?_, by decide⟩
  · simp +decide [calculate_proportion, aggregateFiltered, matchesIdentifier, pyIsNumeric,
      pyLower, lowerChar, applyDeptFilter, groupDepts, deptKeys, withProportions,
      thresholdRenormalize, argmaxRow, pandasSortDescByProp, List.mergeSort, List.merge,
      List.splitInTwo, List.dedup, List.pwFilter, charListLe]
    norm_num [List.mergeSort, List.merge, List.splitInTwo, Bool.cond_eq_ite,
      decide_eq_true_eq]
  · simp +decide [groupDepts, deptKeys, List.dedup, List.pwFilter, List.mergeSort,
      List.merge, List.splitInTwo, charListLe]

lemma mergeSort_filter_ties (g : List PRow) (p : ℚ) :
    (g.mergeSort (fun a b => a.prop ≤ b.prop)).filter (fun r => r.prop == p)
      = g.filter (fun r => r.prop == p) := by
  have htrans : ∀ a b c : PRow, (decide (a.prop ≤ b.prop)) = true →
      (decide (b.prop ≤ c.prop)) = true → (decide (a.prop ≤ c.prop)) = true := by
    intro a b c hab hbc
    simp only [decide_eq_true_eq] at hab hbc ⊢
    exact le_trans hab hbc
  have htotal : ∀ a b : PRow, ((decide (a.prop ≤ b.prop)) || (decide (b.prop ≤ a.prop))) = true := by
    intro a b
    simp only [Bool.or_eq_true, decide_eq_true_eq]
    exact le_total _ _
  have hcall : ∀ x ∈ g.filter (fun r => r.prop == p), x.prop = p := by
    intro x hx
    have h2 := (List.mem_filter.mp hx).2
    simpa using h2
  have hcpair : List.Pairwise (fun a b : PRow => (decide (a.prop ≤ b.prop)) = true)
      (g.filter (fun r => r.prop == p)) := by
    refine List.pairwise_of_forall_mem_list ?_
    intro a ha b hb
    simp only [decide_eq_true_eq]
    rw [hcall a ha, hcall b hb]
  have hsub2 : (g.filter (fun r => r.prop == p)).Sublist
      (g.mergeSort (fun a b => a.prop ≤ b.prop)) :=
    List.mergeSort_stable htrans htotal hcpair (List.filter_sublist g)
  have hfilt : (g.filter (fun r => r.prop == p)).filter (fun r => r.prop == p)
      = g.filter (fun r => r.prop == p) :=
    List.filter_eq_self.mpr (fun a ha => by simpa using hcall a ha)
  have hsub3 : (g.filter (fun r => r.prop == p)).Sublist
      ((g.mergeSort (fun a b => a.prop ≤ b.prop)).filter (fun r => r.prop == p)) := by
    have h2 := hsub2.filter (fun r => r.prop == p)
    rwa [hfilt] at h2
  have hperm := (List.mergeSort_perm g (fun a b => a.prop ≤ b.prop)).filter
    (fun r => r.prop == p)
  have hlen : (g.filter (fun r => r.prop == p)).length
      = ((g.mergeSort (fun a b => a.prop ≤ b.prop)).filter (fun r => r.prop == p)).length :=
    hperm.length_eq.symm
  exact (hsub3.eq_of_length hlen).symm

/-- C7 (amended): every successful `calculate_proportion` result is sorted by
share descending and is a permutation of the renormalized table, but rows
with equal share appear in the REVERSE of their pre-sort order: pandas
implements `ascending=False` as a reversed stable ascending sort. -/
theorem c7_sorted_desc_ties_reversed (df : List Record) (identifier : String)
    (department : Option String) (mp : ℚ) (out : List PRow)
    (h : calculate_proportion df identifier department mp = some out) :
    List.Pairwise (fun a b : PRow => b.prop ≤ a.prop) out ∧
    out.Perm (thresholdRenormalize mp (preProportions df identifier department)) ∧
    ∀ p : ℚ, out.filter (fun r => r.prop == p)
      = ((thresholdRenormalize mp (preProportions df identifier department)).filter
          (fun r => r.prop == p)).reverse := by
  obtain ⟨hout, _, _⟩ := calculate_proportion_some df identifier department mp out h
  refine ⟨?_, ?_, ?_⟩
  · rw [hout]
    unfold pandasSortDescByProp
    refine (List.pairwise_reverse).mpr ?_
    have hs := @List.sorted_mergeSort PRow
      (fun a b : PRow => decide (a.prop ≤ b.prop))
      (fun a b c hab hbc => by
        simp only [decide_eq_true_eq] at hab hbc ⊢
        exact le_trans hab hbc)
      (fun a b => by
        simp only [Bool.or_eq_true, decide_eq_true_eq]
        exact le_total _ _)
      (thresholdRenormalize mp (preProportions df identifier department))
    refine hs.imp ?_
    intro a b hab
    simpa using hab
  · rw [hout]
    exact pandasSortDescByProp_perm _
  · intro p
    rw [hout]
    unfold pandasSortDescByProp
    rw [List.filter_reverse, mergeSort_filter_ties]

/-- Witness for C7 (amended) at the tie scenario: A and B each consumed 5
units of "flour". -/
theorem c7_sorted_desc_ties_reversed_witness :
    List.Pairwise (fun a b : PRow => b.prop ≤ a.prop)
      ([⟨"B", 5, 50⟩, ⟨"A", 5, 50⟩] : List PRow) ∧
    ([⟨"B", 5, 50⟩, ⟨"A", 5, 50⟩] : List PRow).Perm
      (thresholdRenormalize 1 (preProportions [⟨"1", "flour", "A", 5⟩, ⟨"2", "flour", "B", 5⟩]
        "flour" none)) ∧
    ∀ p : ℚ, ([⟨"B", 5, 50⟩, ⟨"A", 5, 50⟩] : List PRow).filter (fun r => r.prop == p)
      = ((thresholdRenormalize 1 (preProportions [⟨"1", "flour", "A", 5⟩, ⟨"2", "flour", "B", 5⟩]
          "flour" none)).filter (fun r => r.prop == p)).reverse :=
  c7_sorted_desc_ties_reversed [⟨"1", "flour", "A", 5⟩, ⟨"2", "flour", "B", 5⟩] "flour" none 1
    [⟨"B", 5, 50⟩, ⟨"A", 5, 50⟩] (by
      simp +decide [calculate_proportion, aggregateFiltered, matchesIdentifier, pyIsNumeric,
        pyLower, lowerChar, applyDeptFilter, groupDepts, deptKeys, withProportions,
        thresholdRenormalize, argmaxRow, pandasSortDescByProp, List.mergeSort, List.merge,
        List.splitInTwo, List.dedup, List.pwFilter, charListLe]
      norm_num [List.mergeSort, List.merge, List.splitInTwo, Bool.cond_eq_ite,
        decide_eq_true_eq])

/-! ### C8: idempotence of threshold-and-renormalize -/

lemma prow_update_self (w : PRow) (v : ℚ) (h : w.prop = v) :
    ({ w with prop := v } : PRow) = w := by
  cases w
  simp_all

/-- C8 (counterexample): with shares [-5, 1, 104] (summing to 100; negative
shares arise from negative quantities, which the code accepts) and threshold
1, one application keeps B and C and renormalizes them to 20/21 and 2080/21;
B's new share falls below 1, so a second application drops B and renormalizes
to [100]: the step is not idempotent on every proportion table. -/
theorem c8_counterexample :
    thresholdRenormalize 1 (thresholdRenormalize 1
        [⟨"A", -5, -5⟩, ⟨"B", 1, 1⟩, ⟨"C", 104, 104⟩])
      ≠ thresholdRenormalize 1 [⟨"A", -5, -5⟩, ⟨"B", 1, 1⟩, ⟨"C", 104, 104⟩] ∧
    thresholdRenormalize 1 [⟨"A", -5, -5⟩, ⟨"B", 1, 1⟩, ⟨"C", 104, 104⟩]
      = [⟨"B", 1, 20 / 21⟩, ⟨"C", 104, 2080 / 21⟩] ∧
    thresholdRenormalize 1 (thresholdRenormalize 1
        [⟨"A", -5, -5⟩, ⟨"B", 1, 1⟩, ⟨"C", 104, 104⟩])
      = [⟨"C", 104, 100⟩] ∧
    (([⟨"A", -5, -5⟩, ⟨"B", 1, 1⟩, ⟨"C", 104, 104⟩] : List PRow).map (·.prop)).sum = 100 := by
  have h1 : thresholdRenormalize 1 [⟨"A", -5, -5⟩, ⟨"B", 1, 1⟩, ⟨"C", 104, 104⟩]
      = [⟨"B", 1, 20 / 21⟩, ⟨"C", 104, 2080 / 21⟩] := by
    norm_num [thresholdRenormalize, argmaxRow, decide_eq_true_eq]
  have h2 : thresholdRenormalize 1 ([⟨"B", 1, 20 / 21⟩, ⟨"C", 104, 2080 / 21⟩] : List PRow)
      = [⟨"C", 104, 100⟩] := by
    norm_num [thresholdRenormalize, argmaxRow, decide_eq_true_eq]
  refine ⟨?_, h1, by rw [h1]; exact h2, by norm_num⟩
  rw [h1, h2]
  intro hc
  simp at hc

lemma thresholdRenormalize_singleton (t : ℚ) (w : PRow) (hw : w.prop = 100) :
    thresholdRenormalize t [w] = [w] := by
  by_cases ht2 : t ≤ w.prop
  · have hf : ([w].filter (fun r => t ≤ r.prop)) = [w] := by simp [ht2]
    rcases thresholdRenormalize_cases t [w] with ⟨_, heq⟩ | ⟨hsig, _, _⟩ | ⟨hr, _⟩
    · rw [heq, hf]
      simp only [List.map_cons, List.map_nil, List.sum_cons, List.sum_nil, add_zero, hw]
      norm_num
      exact prow_update_self w 100 hw
    · rw [hf] at hsig
      exact absurd hsig (by simp)
    · exact absurd hr (by simp)
  · have hf : ([w].filter (fun r => t ≤ r.prop)) = [] := by simp [ht2]
    rcases thresholdRenormalize_cases t [w] with ⟨hsig, _⟩ | ⟨_, _, heq⟩ | ⟨hr, _⟩
    · exact absurd hf hsig
    · rw [heq]
      have ham : argmaxRow [w] = w := rfl
      rw [ham, hw]
      norm_num
      exact prow_update_self w 100 hw
    · exact absurd hr (by simp)

/-- C8 (amended): the threshold-and-renormalize step is idempotent on every
proportion table with non-negative shares summing to 100 and non-negative
threshold (the shape produced from non-negative quantities); with negative
shares a kept borderline row can shrink below the threshold after
renormalization, breaking idempotence. -/
theorem c8_amended_idempotent (rows : List PRow) (t : ℚ) (ht : 0 ≤ t)
    (hnn : ∀ r ∈ rows, 0 ≤ r.prop) (hsum : (rows.map (·.prop)).sum = 100) :
    thresholdRenormalize t (thresholdRenormalize t rows) = thresholdRenormalize t rows := by
  have hsum1 : ((thresholdRenormalize t rows).map (·.prop)).sum = 100 :=
    thresholdRenormalize_sum t rows ht hsum
  rcases thresholdRenormalize_cases t rows with ⟨hsig, heq⟩ | ⟨hsig, hrows, heq⟩ | ⟨hrows, heq⟩
  · -- significant rows kept and renormalized
    have hSpos : 0 < ((rows.filter (fun r => t ≤ r.prop)).map (·.prop)).sum :=
      thresholdRenormalize_total_pos t rows ht hsum hsig
    have hSle : ((rows.filter (fun r => t ≤ r.prop)).map (·.prop)).sum ≤ 100 := by
      have hpart := ((List.filter_append_perm (fun r => t ≤ r.prop) rows).map (·.prop)).sum_eq
      rw [List.map_append, List.sum_append, hsum] at hpart
      have hdrop : 0 ≤ ((rows.filter (fun r => !(t ≤ r.prop : Bool))).map (·.prop)).sum := by
        refine le_trans (by simp) (List.card_nsmul_le_sum _ 0 ?_)
        intro x hx
        obtain ⟨r, hr, rfl⟩ := List.mem_map.mp hx
        exact hnn r (List.mem_filter.mp hr).1
      linarith
    have hkeep : (((rows.filter (fun r => t ≤ r.prop)).map (fun r =>
        { r with prop := r.prop / (((rows.filter (fun r => t ≤ r.prop)).map (·.prop)).sum) * 100 })
          : List PRow)).filter (fun r => t ≤ r.prop)
        = (rows.filter (fun r => t ≤ r.prop)).map (fun r =>
            { r with prop := r.prop / (((rows.filter (fun r => t ≤ r.prop)).map (·.prop)).sum) * 100 }) := by
      refine List.filter_eq_self.mpr ?_
      intro a ha
      obtain ⟨r, hr, rfl⟩ := List.mem_map.mp ha
      have hrt : t ≤ r.prop := by
        have h2 := (List.mem_filter.mp hr).2
        simpa using h2
      have hr0 : 0 ≤ r.prop := hnn r (List.mem_filter.mp hr).1
      simp only [decide_eq_true_eq]
      have hgrow : r.prop ≤ r.prop / (((rows.filter (fun r => t ≤ r.prop)).map (·.prop)).sum) * 100 := by
        rw [div_mul_eq_mul_div, le_div_iff hSpos]
        nlinarith
      exact le_trans hrt hgrow
    have hmne : (((rows.filter (fun r => t ≤ r.prop)).map (fun r =>
        { r with prop := r.prop / (((rows.filter (fun r => t ≤ r.prop)).map (·.prop)).sum) * 100 })
          : List PRow)) ≠ [] := by
      intro hc
      exact hsig (List.map_eq_nil_iff.mp hc)
    rw [heq]
    rcases thresholdRenormalize_cases t ((rows.filter (fun r => t ≤ r.prop)).map (fun r =>
        { r with prop := r.prop / (((rows.filter (fun r => t ≤ r.prop)).map (·.prop)).sum) * 100 })) with
      ⟨_, heq2⟩ | ⟨hsig2, _, _⟩ | ⟨hrows2, _⟩
    · rw [heq2, hkeep]
      have hsum2 : ((((rows.filter (fun r => t ≤ r.prop)).map (fun r =>
          { r with prop := r.prop / (((rows.filter (fun r => t ≤ r.prop)).map (·.prop)).sum) * 100 })
            : List PRow)).map (·.prop)).sum = 100 := by
        rw [← heq]
        exact hsum1
      rw [hsum2]
      have hid : ∀ a ∈ (((rows.filter (fun r => t ≤ r.prop)).map (fun r =>
          { r with prop := r.prop / (((rows.filter (fun r => t ≤ r.prop)).map (·.prop)).sum) * 100 })
            : List PRow)),
          ({ a with prop := a.prop / 100 * 100 } : PRow) = a := by
        intro a _
        exact prow_update_self a _ (by ring)
      rw [List.map_congr_left hid]
      simp
    · rw [hkeep] at hsig2
      exact absurd hsig2 hmne
    · exact absurd hrows2 hmne
  · -- fallback: single argmax row, renormalized share 100
    have hpos := argmaxRow_prop_pos rows hsum
    have hne0 : (argmaxRow rows).prop ≠ 0 := ne_of_gt hpos
    rw [heq]
    refine thresholdRenormalize_singleton t _ ?_
    show (argmaxRow rows).prop / (argmaxRow rows).prop * 100 = 100
    rw [div_self hne0]
    norm_num
  · rw [hrows] at hsum
    norm_num at hsum

/-- Witness for C8 (amended): shares [70, 30], threshold 1. -/
theorem c8_amended_idempotent_witness :
    thresholdRenormalize 1 (thresholdRenormalize 1 [⟨"B", 70, 70⟩, ⟨"A", 30, 30⟩])
      = thresholdRenormalize 1 [⟨"B", 70, 70⟩, ⟨"A", 30, 30⟩] :=
  c8_amended_idempotent [⟨"B", 70, 70⟩, ⟨"A", 30, 30⟩] 1 (by norm_num)
    (by
      intro r hr
      simp only [List.mem_cons, List.not_mem_nil, or_false] at hr
      rcases hr with rfl | rfl <;> norm_num)
    (by norm_num)

/-! ### C9: identifier dispatch -/

/-- C9: `calculate_proportion` depends on the data frame only through the
records that exactly match the identifier, and the match of lines 100-103 is
dispatched on the identifier's form: an all-digit identifier is compared
case-insensitively and exactly with the string form of `ITEM_SERIAL`, any
other identifier with `ITEM NAME`; no substring matching in either case. -/
theorem c9_identifier_dispatch (identifier : String) :
    (∀ df₁ df₂ : List Record, ∀ department mp,
      df₁.filter (matchesIdentifier identifier) = df₂.filter (matchesIdentifier identifier) →
      calculate_proportion df₁ identifier department mp
        = calculate_proportion df₂ identifier department mp) ∧
    (pyIsNumeric identifier = true →
      ∀ r : Record, matchesIdentifier identifier r = (pyLower r.serial == pyLower identifier)) ∧
    (pyIsNumeric identifier = false →
      ∀ r : Record, matchesIdentifier identifier r = (pyLower r.itemName == pyLower identifier)) := by
  refine ⟨?_, ?_, ?_⟩
  · intro df₁ df₂ department mp h
    simp only [calculate_proportion]
    rw [h]
  · intro hnum r
    simp [matchesIdentifier, hnum]
  · intro hnum r
    simp [matchesIdentifier, hnum]

/-- Witness for C9: for the all-digit identifier "123", a record with serial
"999" does not influence the result. -/
theorem c9_identifier_dispatch_witness :
    calculate_proportion [⟨"123", "flour", "A", 5⟩, ⟨"999", "sugar", "B", 7⟩] "123" none 1
      = calculate_proportion [⟨"123", "flour", "A", 5⟩] "123" none 1 :=
  (c9_identifier_dispatch "123").1
    [⟨"123", "flour", "A", 5⟩, ⟨"999", "sugar", "B", 7⟩] [⟨"123", "flour", "A", 5⟩] none 1
    (by simp +decide [matchesIdentifier, pyIsNumeric, pyLower, lowerChar])

/-! ### C10: the fixed 1% threshold inside allocate_quantity -/

lemma allocate_some_shape (rows : List PRow) (Q : ℚ) (out : List ARow)
    (h : allocate rows Q = some out) :
    out = rows.zipWith (fun r a => ARow.mk r.dept r.quantity r.prop a)
      (allocationsCore rows Q) := by
  simp only [allocate] at h
  by_cases hc : (((allocationsCore rows Q).sum : ℤ) : ℚ) = Q
  · rw [if_pos hc] at h
    exact (Option.some_inj.mp h).symm
  · rw [if_neg hc] at h
    exact absurd h (by simp)

/-- C10: `allocate_quantity` always aggregates with `min_proportion` fixed at
1.0 (the call site offers no way to change it): a department whose
pre-renormalization share is strictly below 1% appears in no allocation
entry whenever some department reaches 1%, and when every department is
below 1% the single first department of maximal share receives the entire
integer quantity. -/
theorem c10_one_percent_threshold (df : List Record) (identifier : String)
    (department : Option String) (Q : ℕ) (out : List ARow)
    (h : allocate_quantity df identifier (Q : ℚ) department = some out) :
    ((∃ r ∈ preProportions df identifier department, (1 : ℚ) ≤ r.prop) →
      ∀ r ∈ preProportions df identifier department, r.prop < 1 →
        r.dept ∉ out.map (·.dept)) ∧
    ((∀ r ∈ preProportions df identifier department, r.prop < 1) →
      ∃ r ∈ preProportions df identifier department,
        (∀ r' ∈ preProportions df identifier department, r'.prop ≤ r.prop) ∧
        out.map (fun a => (a.dept, a.alloc)) = [(r.dept, (Q : ℤ))]) := by
  simp only [allocate_quantity] at h
  obtain ⟨props, hprops, hal⟩ := Option.bind_eq_some.mp h
  have hshape := allocate_some_shape props (Q : ℚ) out hal
  have hlen := allocationsCore_length props (Q : ℚ)
  have hdeps : out.map (·.dept) = props.map (·.dept) := by
    rw [hshape]
    exact map_dept_zipWith props _ hlen
  refine ⟨?_, ?_⟩
  · intro hex r hr hlt hmem
    rw [hdeps] at hmem
    exact calculate_proportion_excludes df identifier department 1 props hprops hex
      r hr hlt hmem
  · intro hall
    obtain ⟨r, hrmem, hrmax, hprops1⟩ :=
      calculate_proportion_fallback df identifier department 1 props hprops hall
    refine ⟨r, hrmem, hrmax, ?_⟩
    have hexact : exactShares [⟨r.dept, r.quantity, 100⟩] (Q : ℚ) = [(Q : ℚ)] := by
      simp [exactShares]
    have hQQ : (((Q : ℤ) : ℚ)) = ((Q : ℕ) : ℚ) := by push_cast; ring
    have hrhe : roundHalfEven ((Q : ℕ) : ℚ) = (Q : ℤ) := by
      have h2 := roundHalfEven_intCast (Q : ℤ)
      rwa [hQQ] at h2
    have hcore : allocationsCore [⟨r.dept, r.quantity, 100⟩] (Q : ℚ) = [(Q : ℤ)] := by
      rw [allocationsCore_sum_branch _ _ ?hc]
      · rw [hexact]
        simp [hrhe]
      case hc =>
        rw [hexact]
        simp only [List.map_cons, List.map_nil, List.sum_cons, List.sum_nil, add_zero, hrhe]
        exact hQQ
    rw [hprops1] at hshape
    rw [hcore] at hshape
    rw [hshape]
    simp

/-- Witness for C10: records A = 30, B = 70 of "flour", quantity 10. -/
theorem c10_one_percent_threshold_witness :
    ((∃ r ∈ preProportions [⟨"1", "flour", "A", 30⟩, ⟨"2", "flour", "B", 70⟩] "flour" none,
        (1 : ℚ) ≤ r.prop) →
      ∀ r ∈ preProportions [⟨"1", "flour", "A", 30⟩, ⟨"2", "flour", "B", 70⟩] "flour" none,
        r.prop < 1 →
        r.dept ∉ ([⟨"B", 70, 70, 7⟩, ⟨"A", 30, 30, 3⟩] : List ARow).map (·.dept)) ∧
    ((∀ r ∈ preProportions [⟨"1", "flour", "A", 30⟩, ⟨"2", "flour", "B", 70⟩] "flour" none,
        r.prop < 1) →
      ∃ r ∈ preProportions [⟨"1", "flour", "A", 30⟩, ⟨"2", "flour", "B", 70⟩] "flour" none,
        (∀ r' ∈ preProportions [⟨"1", "flour", "A", 30⟩, ⟨"2", "flour", "B", 70⟩] "flour" none,
          r'.prop ≤ r.prop) ∧
        ([⟨"B", 70, 70, 7⟩, ⟨"A", 30, 30, 3⟩] : List ARow).map (fun a => (a.dept, a.alloc))
          = [(r.dept, ((10 : ℕ) : ℤ))]) :=
  c10_one_percent_threshold [⟨"1", "flour", "A", 30⟩, ⟨"2", "flour", "B", 70⟩] "flour" none 10
    [⟨"B", 70, 70, 7⟩, ⟨"A", 30, 30, 3⟩] (by
      simp +decide [allocate_quantity, calculate_proportion, aggregateFiltered,
        matchesIdentifier, pyIsNumeric, pyLower, lowerChar, applyDeptFilter, groupDepts,
        deptKeys, withProportions, thresholdRenormalize, argmaxRow, pandasSortDescByProp,
        List.mergeSort, List.merge, List.splitInTwo, List.dedup, List.pwFilter, charListLe,
        allocate, allocationsCore, exactShares, roundHalfEven, ratTrunc, adjustAllocs,
        pandasSortIdxDesc, pandasSortIdxAsc, List.range_succ]
      norm_num [List.mergeSort, List.merge, List.splitInTwo, Bool.cond_eq_ite,
        decide_eq_true_eq, roundHalfEven])

/-! ### C6: minimum-floor policy (modelled from the spec) -/

/-- C6 (counterexample): shares [10, 10, 10, 10, 60], total 100, floor 30%.
Some but not all departments fall below the floor (10 < 30 ≤ 60), yet the
result sums to 120: the four below departments are raised to 30 each while
the clawback of 80 from the single at-or-above department is clamped at
zero, so the exact sum is NOT preserved as the claim states. -/
theorem c6_counterexample :
    ((allocateFloor [⟨"A", 0, 10⟩, ⟨"B", 0, 10⟩, ⟨"C", 0, 10⟩, ⟨"D", 0, 10⟩, ⟨"E", 0, 60⟩]
        100 30).map (·.2)).sum = 120 ∧
    (120 : ℚ) ≠ 100 ∧
    ((10 : ℚ) / 100 * 100 < 30 / 100 * 100) ∧
    ¬ ((60 : ℚ) / 100 * 100 < 30 / 100 * 100) ∧
    (([⟨"A", 0, 10⟩, ⟨"B", 0, 10⟩, ⟨"C", 0, 10⟩, ⟨"D", 0, 10⟩, ⟨"E", 0, 60⟩] : List PRow).map
        (·.prop)).sum = 100 := by
  refine ⟨?_, by norm_num, by norm_num, by norm_num, by norm_num⟩
  norm_num [allocateFloor, decide_eq_true_eq]

/-- C6 (amended): Modelled from the spec (Policy B, section 4.2): when some
departments fall strictly below the floor and some do not, every below
department is raised to exactly the floor quantity and every at-or-above
department is reduced proportionally to its share of the at-or-above total;
the exact sum is preserved PROVIDED the total shortfall `needed` does not
exceed the at-or-above total (otherwise the zero-clamp bites and the sum can
exceed the requested total, as the counterexample shows). -/
theorem c6_amended_floor_clawback (rows : List PRow) (Q m : ℚ) (hQ : 0 ≤ Q) (hm : 0 ≤ m)
    (hsum : (rows.map (·.prop)).sum = 100)
    (hbelow : rows.filter (fun r => r.prop / 100 * Q < m / 100 * Q) ≠ [])
    (habove : rows.filter (fun r => !(r.prop / 100 * Q < m / 100 * Q : Bool)) ≠ [])
    (hneed : ((rows.filter (fun r => r.prop / 100 * Q < m / 100 * Q)).map
        (fun r => m / 100 * Q - r.prop / 100 * Q)).sum
      ≤ ((rows.filter (fun r => !(r.prop / 100 * Q < m / 100 * Q : Bool))).map
          (fun r => r.prop / 100 * Q)).sum) :
    allocateFloor rows Q m
      = rows.map (fun r =>
          if r.prop / 100 * Q < m / 100 * Q then (r.dept, m / 100 * Q)
          else (r.dept, r.prop / 100 * Q
            - ((rows.filter (fun r => r.prop / 100 * Q < m / 100 * Q)).map
                (fun r => m / 100 * Q - r.prop / 100 * Q)).sum
              * (r.prop / 100 * Q
                / ((rows.filter (fun r => !(r.prop / 100 * Q < m / 100 * Q : Bool))).map
                    (fun r => r.prop / 100 * Q)).sum))) ∧
    ((allocateFloor rows Q m).map (·.2)).sum = Q := by
  have hNpos : 0 < ((rows.filter (fun r => r.prop / 100 * Q < m / 100 * Q)).map
      (fun r => m / 100 * Q - r.prop / 100 * Q)).sum := by
    refine List.sum_pos _ ?_ ?_
    · intro x hx
      obtain ⟨r, hr, rfl⟩ := List.mem_map.mp hx
      have h2 := (List.mem_filter.mp hr).2
      simp only [decide_eq_true_eq] at h2
      linarith
    · intro hc
      rw [List.map_eq_nil_iff] at hc
      exact hbelow hc
  have hTpos : 0 < ((rows.filter (fun r => !(r.prop / 100 * Q < m / 100 * Q : Bool))).map
      (fun r => r.prop / 100 * Q)).sum := lt_of_lt_of_le hNpos hneed
  have hbe : (rows.filter (fun r => r.prop / 100 * Q < m / 100 * Q)).isEmpty = false := by
    simpa [List.isEmpty_iff] using hbelow
  have hae : (rows.filter (fun r => !(r.prop / 100 * Q < m / 100 * Q : Bool))).isEmpty = false := by
    simpa [List.isEmpty_iff] using habove
  have hstep : allocateFloor rows Q m = rows.map (fun r =>
      if r.prop / 100 * Q < m / 100 * Q then (r.dept, m / 100 * Q)
      else (r.dept, max 0 (r.prop / 100 * Q
        - ((rows.filter (fun r => r.prop / 100 * Q < m / 100 * Q)).map
            (fun r => m / 100 * Q - r.prop / 100 * Q)).sum
          * ((r.prop / 100 * Q)
            / ((rows.filter (fun r => !(r.prop / 100 * Q < m / 100 * Q : Bool))).map
                (fun r => r.prop / 100 * Q)).sum)))) := by
    simp only [allocateFloor, hbe, hae]
    norm_num
  have hnoclamp : ∀ r ∈ rows, ¬ (r.prop / 100 * Q < m / 100 * Q) →
      max 0 (r.prop / 100 * Q
        - ((rows.filter (fun r => r.prop / 100 * Q < m / 100 * Q)).map
            (fun r => m / 100 * Q - r.prop / 100 * Q)).sum
          * ((r.prop / 100 * Q)
            / ((rows.filter (fun r => !(r.prop / 100 * Q < m / 100 * Q : Bool))).map
                (fun r => r.prop / 100 * Q)).sum))
        = r.prop / 100 * Q
          - ((rows.filter (fun r => r.prop / 100 * Q < m / 100 * Q)).map
              (fun r => m / 100 * Q - r.prop / 100 * Q)).sum
            * ((r.prop / 100 * Q)
              / ((rows.filter (fun r => !(r.prop / 100 * Q < m / 100 * Q : Bool))).map
                  (fun r => r.prop / 100 * Q)).sum) := by
    intro r _ hge
    have hminQ : 0 ≤ m / 100 * Q := by positivity
    have he0 : 0 ≤ r.prop / 100 * Q := le_trans hminQ (not_lt.mp hge)
    refine max_eq_right ?_
    have hred : ((rows.filter (fun r => r.prop / 100 * Q < m / 100 * Q)).map
        (fun r => m / 100 * Q - r.prop / 100 * Q)).sum
          * ((r.prop / 100 * Q)
            / ((rows.filter (fun r => !(r.prop / 100 * Q < m / 100 * Q : Bool))).map
                (fun r => r.prop / 100 * Q)).sum)
        ≤ r.prop / 100 * Q := by
      have hdiv0 : 0 ≤ (r.prop / 100 * Q)
          / ((rows.filter (fun r => !(r.prop / 100 * Q < m / 100 * Q : Bool))).map
              (fun r => r.prop / 100 * Q)).sum := div_nonneg he0 (le_of_lt hTpos)
      calc ((rows.filter (fun r => r.prop / 100 * Q < m / 100 * Q)).map
            (fun r => m / 100 * Q - r.prop / 100 * Q)).sum
            * ((r.prop / 100 * Q)
              / ((rows.filter (fun r => !(r.prop / 100 * Q < m / 100 * Q : Bool))).map
                  (fun r => r.prop / 100 * Q)).sum)
          ≤ ((rows.filter (fun r => !(r.prop / 100 * Q < m / 100 * Q : Bool))).map
              (fun r => r.prop / 100 * Q)).sum
            * ((r.prop / 100 * Q)
              / ((rows.filter (fun r => !(r.prop / 100 * Q < m / 100 * Q : Bool))).map
                  (fun r => r.prop / 100 * Q)).sum) :=
            mul_le_mul_of_nonneg_right hneed hdiv0
        _ = r.prop / 100 * Q := by
            have hgen : ∀ T e : ℚ, T ≠ 0 → T * (e / T) = e := by
              intro T e hT
              field_simp
            exact hgen _ _ (ne_of_gt hTpos)
    linarith
  constructor
  · rw [hstep]
    refine List.map_congr_left ?_
    intro r hr
    by_cases hc : r.prop / 100 * Q < m / 100 * Q
    · rw [if_pos hc, if_pos hc]
    · rw [if_neg hc, if_neg hc, hnoclamp r hr hc]
  · rw [hstep]
    rw [List.map_map]
    have hval : rows.map ((fun p : String × ℚ => p.2) ∘ (fun r : PRow =>
        if r.prop / 100 * Q < m / 100 * Q then (r.dept, m / 100 * Q)
        else (r.dept, max 0 (r.prop / 100 * Q
          - ((rows.filter (fun r => r.prop / 100 * Q < m / 100 * Q)).map
              (fun r => m / 100 * Q - r.prop / 100 * Q)).sum
            * ((r.prop / 100 * Q)
              / ((rows.filter (fun r => !(r.prop / 100 * Q < m / 100 * Q : Bool))).map
                  (fun r => r.prop / 100 * Q)).sum)))))
        = rows.map (fun r : PRow =>
            if r.prop / 100 * Q < m / 100 * Q then m / 100 * Q
            else r.prop / 100 * Q
              - ((rows.filter (fun r => r.prop / 100 * Q < m / 100 * Q)).map
                  (fun r => m / 100 * Q - r.prop / 100 * Q)).sum
                * ((r.prop / 100 * Q)
                  / ((rows.filter (fun r => !(r.prop / 100 * Q < m / 100 * Q : Bool))).map
                      (fun r => r.prop / 100 * Q)).sum)) := by
      refine List.map_congr_left ?_
      intro r hr
      by_cases hc : r.prop / 100 * Q < m / 100 * Q
      · simp only [Function.comp, if_pos hc]
      · simp only [Function.comp, if_neg hc]
        rw [hnoclamp r hr hc]
    rw [hval]
    have hpart := ((List.filter_append_perm (fun r => r.prop / 100 * Q < m / 100 * Q) rows).map
      (fun r : PRow =>
        if r.prop / 100 * Q < m / 100 * Q then m / 100 * Q
        else r.prop / 100 * Q
          - ((rows.filter (fun r => r.prop / 100 * Q < m / 100 * Q)).map
              (fun r => m / 100 * Q - r.prop / 100 * Q)).sum
            * ((r.prop / 100 * Q)
              / ((rows.filter (fun r => !(r.prop / 100 * Q < m / 100 * Q : Bool))).map
                  (fun r => r.prop / 100 * Q)).sum))).sum_eq
    rw [List.map_append, List.sum_append] at hpart
    rw [← hpart]
    have hbelowsum : ((rows.filter (fun r => r.prop / 100 * Q < m / 100 * Q)).map
        (fun r : PRow =>
          if r.prop / 100 * Q < m / 100 * Q then m / 100 * Q
          else r.prop / 100 * Q
            - ((rows.filter (fun r => r.prop / 100 * Q < m / 100 * Q)).map
                (fun r => m / 100 * Q - r.prop / 100 * Q)).sum
              * ((r.prop / 100 * Q)
                / ((rows.filter (fun r => !(r.prop / 100 * Q < m / 100 * Q : Bool))).map
                    (fun r => r.prop / 100 * Q)).sum))).sum
        = ((rows.filter (fun r => r.prop / 100 * Q < m / 100 * Q)).map
            (fun r => r.prop / 100 * Q)).sum
          + ((rows.filter (fun r => r.prop / 100 * Q < m / 100 * Q)).map
              (fun r => m / 100 * Q - r.prop / 100 * Q)).sum := by
      have h1 : ∀ r ∈ rows.filter (fun r => r.prop / 100 * Q < m / 100 * Q),
          (fun r : PRow =>
            if r.prop / 100 * Q < m / 100 * Q then m / 100 * Q
            else r.prop / 100 * Q
              - ((rows.filter (fun r => r.prop / 100 * Q < m / 100 * Q)).map
                  (fun r => m / 100 * Q - r.prop / 100 * Q)).sum
                * ((r.prop / 100 * Q)
                  / ((rows.filter (fun r => !(r.prop / 100 * Q < m / 100 * Q : Bool))).map
                      (fun r => r.prop / 100 * Q)).sum)) r
            = (fun r : PRow => r.prop / 100 * Q + (m / 100 * Q - r.prop / 100 * Q)) r := by
        intro r hr
        have h2 := (List.mem_filter.mp hr).2
        simp only [decide_eq_true_eq] at h2
        simp only [if_pos h2]
        ring
      rw [List.map_congr_left h1, List.sum_map_add]
    have habovesum : ((rows.filter (fun r => !(r.prop / 100 * Q < m / 100 * Q : Bool))).map
        (fun r : PRow =>
          if r.prop / 100 * Q < m / 100 * Q then m / 100 * Q
          else r.prop / 100 * Q
            - ((rows.filter (fun r => r.prop / 100 * Q < m / 100 * Q)).map
                (fun r => m / 100 * Q - r.prop / 100 * Q)).sum
              * ((r.prop / 100 * Q)
                / ((rows.filter (fun r => !(r.prop / 100 * Q < m / 100 * Q : Bool))).map
                    (fun r => r.prop / 100 * Q)).sum))).sum
        = ((rows.filter (fun r => !(r.prop / 100 * Q < m / 100 * Q : Bool))).map
            (fun r => r.prop / 100 * Q)).sum
          - ((rows.filter (fun r => r.prop / 100 * Q < m / 100 * Q)).map
              (fun r => m / 100 * Q - r.prop / 100 * Q)).sum := by
      have h1 : ∀ r ∈ rows.filter (fun r => !(r.prop / 100 * Q < m / 100 * Q : Bool)),
          (fun r : PRow =>
            if r.prop / 100 * Q < m / 100 * Q then m / 100 * Q
            else r.prop / 100 * Q
              - ((rows.filter (fun r => r.prop / 100 * Q < m / 100 * Q)).map
                  (fun r => m / 100 * Q - r.prop / 100 * Q)).sum
                * ((r.prop / 100 * Q)
                  / ((rows.filter (fun r => !(r.prop / 100 * Q < m / 100 * Q : Bool))).map
                      (fun r => r.prop / 100 * Q)).sum)) r
            = (fun r : PRow => (r.prop / 100 * Q)
                * (1 - ((rows.filter (fun r => r.prop / 100 * Q < m / 100 * Q)).map
                    (fun r => m / 100 * Q - r.prop / 100 * Q)).sum
                  / ((rows.filter (fun r => !(r.prop / 100 * Q < m / 100 * Q : Bool))).map
                      (fun r => r.prop / 100 * Q)).sum)) r := by
        intro r hr
        have h2 := (List.mem_filter.mp hr).2
        simp only [Bool.not_eq_true', decide_eq_false_iff_not] at h2
        simp only [if_neg h2]
        ring
      rw [List.map_congr_left h1, List.sum_map_mul_right]
      have hgen : ∀ T N : ℚ, T ≠ 0 → T * (1 - N / T) = T - N := by
        intro T N hT
        field_simp
      exact hgen _ _ (ne_of_gt hTpos)
    rw [hbelowsum, habovesum]
    have hexacts : ((rows.filter (fun r => r.prop / 100 * Q < m / 100 * Q)).map
        (fun r => r.prop / 100 * Q)).sum
        + ((rows.filter (fun r => !(r.prop / 100 * Q < m / 100 * Q : Bool))).map
            (fun r => r.prop / 100 * Q)).sum = Q := by
      have hp := ((List.filter_append_perm (fun r => r.prop / 100 * Q < m / 100 * Q) rows).map
        (fun r : PRow => r.prop / 100 * Q)).sum_eq
      rw [List.map_append, List.sum_append] at hp
      rw [hp]
      have hq : rows.map (fun r : PRow => r.prop / 100 * Q)
          = rows.map (fun r : PRow => r.prop * (Q / 100)) :=
        List.map_congr_left (fun r _ => by ring)
      rw [hq, List.sum_map_mul_right, hsum]
      ring
    linarith [hexacts]

/-- Witness for C6 (amended) at the spec's min-floor scenario (section 8,
item 8): shares [2, 2, 96], total 100, floor 5% — A and B are raised to 5
each, C is reduced to 90, and the sum stays 100. -/
theorem c6_amended_floor_clawback_witness :
    (allocateFloor [⟨"A", 0, 2⟩, ⟨"B", 0, 2⟩, ⟨"C", 0, 96⟩] 100 5
      = [("A", 5), ("B", 5), ("C", 90)]) ∧
    ((allocateFloor [⟨"A", 0, 2⟩, ⟨"B", 0, 2⟩, ⟨"C", 0, 96⟩] 100 5).map (·.2)).sum = 100 := by
  obtain ⟨heq, hsum⟩ := c6_amended_floor_clawback
    [⟨"A", 0, 2⟩, ⟨"B", 0, 2⟩, ⟨"C", 0, 96⟩] 100 5
    (by norm_num) (by norm_num) (by norm_num)
    (by norm_num [decide_eq_true_eq]; exact List.cons_ne_nil _ _)
    (by norm_num [decide_eq_true_eq])
    (by norm_num [decide_eq_true_eq])
  refine ⟨?_, hsum⟩
  rw [heq]
  norm_num [decide_eq_true_eq]

end SPP
